import Mathlib

/-!
# IVTC-DN plugin: replay of a field-matching decision log

Shallow embedding of `src/plugin.cpp`: the compile loop of `ivtcCreate`, which
turns the action log of a project into the per-frame field plan
`fieldsForFrames`, and the frame synthesis of `ivtcGetFrame`.

Conventions of the embedding.
* `uint_fast32_t` field positions are natural numbers; the sentinel
  `UINT_FAST32_MAX` is the LP64 value `2^64 - 1`.
* The loop counters of `ivtcCreate` are C++ `int`s, so the arithmetic
  `cycleIdx * 10 + 10` is only defined while it stays below `INT_MAX`; the
  theorems carry this as the hypothesis `InIntRange`.
* `std::find` over the cycle window yields an iterator offset; the code turns
  "not found" into `-1`, which is kept as an `Int`.
* The parsed JSON object `no_match_handling` is a partial function from member
  names to the string stored there (a member that is not a string compares
  unequal to `"Next"`, exactly as an absent one does in the tested condition).
-/

namespace IVTC

/-! ## Constants -/

/-- Largest value of `uint_fast32_t` (64 bits wide on LP64 targets). -/
def UINT_FAST32_MAX : Nat := 18446744073709551615

/-- Largest value of a C++ `int`. -/
def INT_MAX : Nat := 2147483647

/-- The pair `(UINT_FAST32_MAX, UINT_FAST32_MAX)`. -/
def EMPTY_PAIR : Nat × Nat := (UINT_FAST32_MAX, UINT_FAST32_MAX)

/-- Role codes of the top fields of the four frames of a cycle. -/
def TOP_FRAMES : List Int := [0, 2, 4, 6]

/-- Role codes of the bottom fields of the four frames of a cycle. -/
def BOTTOM_FRAMES : List Int := [1, 3, 5, 7]

/-- Action code saying that the field completes the last frame of the previous cycle. -/
def COMPLETE_PREVIOUS_CYCLE : Int := 9

/-! ## Project data and compile state -/

/-- The parsed project document: `projectData["ivtc_actions"]` converted to a
vector of `int_fast8_t`, and the object `projectData["no_match_handling"]`. -/
structure Project where
  ivtc_actions : List Int
  no_match_handling : String → Option String

/-- The members of `IvtcData` written by the compile loop, together with the
loop's two locals `lastSpecifiedFrame` and `pushCount`. -/
structure LoopState where
  fieldsForFrames : List (Nat × Nat)
  freezeFrameHandling : Nat → Option String
  lastSpecifiedFrame : Nat × Nat
  pushCount : Nat

/-- State before the first iteration: empty plan, empty map,
`lastSpecifiedFrame = EMPTY_PAIR`, `pushCount = 1`. -/
def LoopState.init : LoopState :=
  { fieldsForFrames := []
    freezeFrameHandling := fun _ => none
    lastSpecifiedFrame := EMPTY_PAIR
    pushCount := 1 }

/-- Assignment `m[k] = v` on a `std::map`. -/
def mapSet (m : Nat → Option String) (k : Nat) (v : String) : Nat → Option String :=
  fun j => if j = k then some v else m j

/-! ## The compile loop of `ivtcCreate` -/

/-- Offset of the iterator returned by `std::find(begin, end, v)`; the length of
the range stands for `end`. -/
def stdFind : List Int → Int → Nat
  | [], _ => 0
  | x :: xs, v => if x = v then 0 else stdFind xs v + 1

/-- The expression `it == cycleActions.end() ? -1 : it - cycleActions.begin()`. -/
def findIndex (cycleActions : List Int) (v : Int) : Int :=
  if stdFind cycleActions v = cycleActions.length then -1
  else (stdFind cycleActions v : Int)

/-- `expectedFields = actions.size()`. -/
def expectedFields (p : Project) : Nat := p.ivtc_actions.length

/-- `completeCycles = expectedFields / 10`. -/
def completeCycles (p : Project) : Nat := expectedFields p / 10

/-- `fieldsWithIncompleteCycles = expectedFields % 10`. -/
def fieldsWithIncompleteCycles (p : Project) : Nat := expectedFields p % 10

/-- `totalCycles`. -/
def totalCycles (p : Project) : Nat :=
  if fieldsWithIncompleteCycles p = 0 then completeCycles p else completeCycles p + 1

/-- `outputFrameCount`. -/
def outputFrameCount (p : Project) : Nat :=
  completeCycles p * 4 + fieldsWithIncompleteCycles p * 2 / 5

/-- `actionCountInCycle` of cycle `cycleIdx`. -/
def actionCountInCycle (p : Project) (cycleIdx : Nat) : Nat :=
  if cycleIdx = completeCycles p then fieldsWithIncompleteCycles p else 10

/-- The span `cycleActions(actions.begin() + actionsIdx, actionCountInCycle)`. -/
def cycleActions (p : Project) (cycleIdx : Nat) : List Int :=
  (p.ivtc_actions.drop (cycleIdx * 10)).take (actionCountInCycle p cycleIdx)

/-- `frameCountInCycle = actionCountInCycle * 2 / 5`. -/
def frameCountInCycle (p : Project) (cycleIdx : Nat) : Nat :=
  actionCountInCycle p cycleIdx * 2 / 5

/-- The lookahead test
`frameIdx == 3 && (actionsIdx + 10) < actions.size() && actions[actionsIdx + 10] == COMPLETE_PREVIOUS_CYCLE`. -/
def carryAhead (p : Project) (cycleIdx frameIdx : Nat) : Bool :=
  frameIdx == 3 && decide (cycleIdx * 10 + 10 < p.ivtc_actions.length)
    && p.ivtc_actions.getD (cycleIdx * 10 + 10) 0 == COMPLETE_PREVIOUS_CYCLE

/-- Position of the top role code of frame `frameIdx` in the window, or `-1`. -/
def topOf (p : Project) (cycleIdx frameIdx : Nat) : Int :=
  findIndex (cycleActions p cycleIdx) (TOP_FRAMES.getD frameIdx 0)

/-- Position of the bottom role code of frame `frameIdx` in the window, or `-1`. -/
def bottomOf (p : Project) (cycleIdx frameIdx : Nat) : Int :=
  findIndex (cycleActions p cycleIdx) (BOTTOM_FRAMES.getD frameIdx 0)

/-- The `if (top == -1 && bottom == -1) ... else if (top != -1) ... else ...`
statement of the loop body: it updates `lastSpecifiedFrame` and
`freezeFrameHandling`. -/
def matchStep (p : Project) (cycleIdx frameIdx : Nat) (st : LoopState) : LoopState :=
  let actionsIdx : Nat := cycleIdx * 10
  let activeFrame : Nat := cycleIdx * 4 + frameIdx
  let top : Int := topOf p cycleIdx frameIdx
  let bottom : Int := bottomOf p cycleIdx frameIdx
  if top = -1 ∧ bottom = -1 then
    let activeFrameJsonKey : String := toString activeFrame
    if carryAhead p cycleIdx frameIdx then
      { st with lastSpecifiedFrame := (actionsIdx + 10, UINT_FAST32_MAX) }
    else if p.no_match_handling activeFrameJsonKey = some "Next" then
      { st with
        freezeFrameHandling := mapSet st.freezeFrameHandling activeFrame "Next"
        lastSpecifiedFrame := EMPTY_PAIR }
    else
      { st with
        freezeFrameHandling := mapSet st.freezeFrameHandling activeFrame "Previous" }
  else if top ≠ -1 then
    if bottom ≠ -1 then
      { st with lastSpecifiedFrame :=
          (((actionsIdx : Int) + top).toNat, ((actionsIdx : Int) + bottom).toNat) }
    else
      { st with lastSpecifiedFrame := (((actionsIdx : Int) + top).toNat, UINT_FAST32_MAX) }
  else
    if carryAhead p cycleIdx frameIdx then
      { st with lastSpecifiedFrame := (actionsIdx + 10, ((actionsIdx : Int) + bottom).toNat) }
    else
      { st with lastSpecifiedFrame := (UINT_FAST32_MAX, ((actionsIdx : Int) + bottom).toNat) }

/-- The `if (lastSpecifiedFrame == EMPTY_PAIR) pushCount++; else { push_back
pushCount times; pushCount = 1; }` statement of the loop body. -/
def pushStep (st : LoopState) : LoopState :=
  if st.lastSpecifiedFrame = EMPTY_PAIR then
    { st with pushCount := st.pushCount + 1 }
  else
    { st with
      fieldsForFrames := st.fieldsForFrames ++ List.replicate st.pushCount st.lastSpecifiedFrame
      pushCount := 1 }

/-- One iteration of the inner loop (one output frame). -/
def frameStep (p : Project) (cycleIdx frameIdx : Nat) (st : LoopState) : LoopState :=
  pushStep (matchStep p cycleIdx frameIdx st)

/-- One iteration of the outer loop: `frameIdx` runs over `[0, frameCountInCycle)`. -/
def cycleStep (p : Project) (st : LoopState) (cycleIdx : Nat) : LoopState :=
  (List.range (frameCountInCycle p cycleIdx)).foldl
    (fun s frameIdx => frameStep p cycleIdx frameIdx s) st

/-- The whole double loop: `cycleIdx` runs over `[0, totalCycles)`. -/
def compileLoop (p : Project) : LoopState :=
  (List.range (totalCycles p)).foldl (cycleStep p) LoopState.init

/-! ## VapourSynth data seen by the plugin

The VapourSynth API is an external collaborator.  Only what `plugin.cpp` reads
or writes is represented: video info, frames as planes of bytes with a stride,
frame properties, and the calls `requestFrameFilter` / `getFrameFilter`, which
are recorded in the result of `ivtcGetFrame`. -/

/-- Fields of `VSVideoFormat` read by the plugin. -/
structure VSVideoFormat where
  numPlanes : Nat
  bytesPerSample : Nat
deriving DecidableEq

/-- The structure `VSVideoInfo`. -/
structure VSVideoInfo where
  format : VSVideoFormat
  fpsNum : Int
  fpsDen : Int
  width : Int
  height : Int
  numFrames : Int
deriving DecidableEq

/-- Value kept by a 32-bit `int` for the mathematical result `x` (two's
complement representation); the identity on `[-2^31, 2^31)`. -/
def toInt32 (x : Int) : Int := (x + 2147483648) % 4294967296 - 2147483648

/-- Value kept by an `int64_t` for the mathematical result `x`; the identity on
`[-2^63, 2^63)`. -/
def toInt64 (x : Int) : Int :=
  (x + 9223372036854775808) % 18446744073709551616 - 9223372036854775808

/-- The two node handles held by `IvtcData`. -/
inductive NodeRef where
  | clip
  | linedoubled
deriving DecidableEq

/-- The structure `IvtcData`; a null `linedoubledNode` is `none`. -/
structure IvtcData where
  videoNode : NodeRef
  vi : VSVideoInfo
  fieldsForFrames : List (Nat × Nat)
  freezeFrameHandling : Nat → Option String
  linedoubledNode : Option NodeRef

/-- The part of `ivtcCreate` after the project has been parsed: `clipInfo` is
`*vsapi->getVideoInfo(d->videoNode)`, `hasLinedoubled` says whether the
optional argument `linedoubled` was given.  `numFrames` and `height` are `int`
members and `fpsNum` is an `int64_t` member of `VSVideoInfo`; the division
`fpsNum /= 5` truncates towards zero. -/
def ivtcCreate (clipInfo : VSVideoInfo) (hasLinedoubled : Bool) (p : Project) : IvtcData :=
  let st := compileLoop p
  { videoNode := NodeRef.clip
    linedoubledNode := if hasLinedoubled then some NodeRef.linedoubled else none
    fieldsForFrames := st.fieldsForFrames
    freezeFrameHandling := st.freezeFrameHandling
    vi :=
      { format := clipInfo.format
        fpsNum := (toInt64 (clipInfo.fpsNum * 2)).tdiv 5
        fpsDen := clipInfo.fpsDen
        width := clipInfo.width
        height := toInt32 (clipInfo.height * 2)
        numFrames := toInt32 (outputFrameCount p : Int) } }

/-- A value stored in a `VSMap` under a key. -/
inductive PropValue where
  | int (i : Int)
  | data (s : String)
deriving DecidableEq

/-- One plane of a frame: its dimensions (`getFrameWidth`, `getFrameHeight`),
its stride (`getStride`) and the bytes addressed from its read/write pointer. -/
structure Plane where
  width : Nat
  height : Nat
  stride : Nat
  mem : Nat → Nat

/-- A frame: format, planes by index, and its property map. -/
structure VSFrame where
  format : VSVideoFormat
  planes : Nat → Plane
  props : String → Option PropValue

/-- The API calls whose results the plugin consumes.  `allocPlane format width
height plane` is plane `plane` of the frame that `newVideoFrame` allocates
(geometry and the not yet written bytes). -/
structure VSAPI where
  getFrameFilter : Nat → NodeRef → VSFrame
  allocPlane : VSVideoFormat → Int → Int → Nat → Plane

/-- `newVideoFrame(format, width, height, propSrc, core)`: a fresh frame that
carries a copy of the properties of `propSrc`. -/
def newVideoFrame (api : VSAPI) (format : VSVideoFormat) (width height : Int)
    (propSrc : VSFrame) : VSFrame :=
  { format := format
    planes := api.allocPlane format width height
    props := propSrc.props }

/-- `copyFrame(src, core)`: a writable copy of `src`. -/
def copyFrame (src : VSFrame) : VSFrame := src

/-- `mapSetInt(props, key, i, maReplace)`. -/
def mapSetInt (props : String → Option PropValue) (key : String) (i : Int) :
    String → Option PropValue :=
  fun k => if k = key then some (PropValue.int i) else props k

/-- `mapSetData(props, key, data, size, dtUtf8, maReplace)`. -/
def mapSetData (props : String → Option PropValue) (key : String) (s : String) :
    String → Option PropValue :=
  fun k => if k = key then some (PropValue.data s) else props k

/-- `mapDeleteKey(props, key)`. -/
def mapDeleteKey (props : String → Option PropValue) (key : String) :
    String → Option PropValue :=
  fun k => if k = key then none else props k

/-- `memcpy(dst + dstp, src + srcp, n)` on byte memories addressed by offset. -/
def memcpy (dst : Nat → Nat) (dstp : Nat) (src : Nat → Nat) (srcp n : Nat) : Nat → Nat :=
  fun a => if dstp ≤ a ∧ a < dstp + n then src (srcp + (a - dstp)) else dst a

/-- The pointers moved by the row loop, as offsets from the plane pointers, and
the destination bytes. -/
structure WeaveState where
  dstp : Nat
  srcpTop : Nat
  srcpBottom : Nat
  mem : Nat → Nat

/-- Body of the loop `for (hl = 0; hl < h; hl++)`. -/
def weaveRow (topMem bottomMem : Nat → Nat) (srcStride dstStride rowSize : Nat)
    (s : WeaveState) : WeaveState :=
  let mem1 := memcpy s.mem s.dstp topMem s.srcpTop rowSize
  let dstp1 := s.dstp + dstStride
  let mem2 := memcpy mem1 dstp1 bottomMem s.srcpBottom rowSize
  { dstp := dstp1 + dstStride
    srcpTop := s.srcpTop + srcStride
    srcpBottom := s.srcpBottom + srcStride
    mem := mem2 }

/-- State after `hl` iterations of the row loop. -/
def weaveLoop (topMem bottomMem : Nat → Nat) (srcStride dstStride rowSize : Nat)
    (s : WeaveState) : Nat → WeaveState
  | 0 => s
  | hl + 1 =>
    weaveRow topMem bottomMem srcStride dstStride rowSize
      (weaveLoop topMem bottomMem srcStride dstStride rowSize s hl)

/-- Body of the loop over planes: `srcStride` is the stride of the bottom
frame, `h` the height of the top frame, `rowSize` the byte width of the
destination plane. -/
def weavePlane (topP bottomP dstP : Plane) (bytesPerSample : Nat) : Plane :=
  let srcStride := bottomP.stride
  let dstStride := dstP.stride
  let h := topP.height
  let rowSize := dstP.width * bytesPerSample
  { dstP with
    mem := (weaveLoop topP.mem bottomP.mem srcStride dstStride rowSize
              { dstp := 0, srcpTop := 0, srcpBottom := 0, mem := dstP.mem } h).mem }

/-- The three activation reasons of the frame callback. -/
inductive ActivationReason where
  | arInitial
  | arAllFramesReady
  | arError
deriving DecidableEq

/-- What one call of `ivtcGetFrame` does: the returned frame (`none` for
`nullptr`), the `requestFrameFilter` calls and the `getFrameFilter` calls, each
in program order as (frame number, node). -/
structure GetFrameResult where
  frame : Option VSFrame
  requested : List (Nat × NodeRef)
  fetched : List (Nat × NodeRef)

/-- The tail of the all-frames-ready branch, common to weave and copy: freeze
tag, removal of `_Field`, `_FieldBased = 0`. -/
def finishProps (d : IvtcData) (n : Nat) (props : String → Option PropValue) :
    String → Option PropValue :=
  let props1 :=
    match d.freezeFrameHandling n with
    | some freezeFrame => mapSetData props "IVTCDN_FreezeFrame" freezeFrame
    | none => props
  mapSetInt (mapDeleteKey props1 "_Field") "_FieldBased" 0

/-- The weave branch of the all-frames-ready phase (the `if` part), entered
with the pair `(top, bottom)`. -/
def weaveBranch (d : IvtcData) (api : VSAPI) (n top bottom : Nat) : GetFrameResult :=
  let top1 := if top = UINT_FAST32_MAX then bottom else top
  let bottom1 := if bottom = UINT_FAST32_MAX then top1 else bottom
  let topFrame := api.getFrameFilter top1 d.videoNode
  let bottomFrame := api.getFrameFilter bottom1 d.videoNode
  let dst := newVideoFrame api d.vi.format d.vi.width d.vi.height topFrame
  let fi := dst.format
  let planes : Nat → Plane := fun plane =>
    if plane < fi.numPlanes then
      weavePlane (topFrame.planes plane) (bottomFrame.planes plane) (dst.planes plane)
        fi.bytesPerSample
    else dst.planes plane
  let props := mapSetInt dst.props "IVTCDN_Fields" (if top1 = bottom1 then 1 else 2)
  { frame := some { dst with planes := planes, props := finishProps d n props }
    requested := []
    fetched := [(top1, d.videoNode), (bottom1, d.videoNode)] }

/-- The copy branch of the all-frames-ready phase (the `else` part), entered
with the pair `(top, bottom)` and the non-null `linedoubledNode`. -/
def copyBranch (d : IvtcData) (api : VSAPI) (n top bottom : Nat) (linedoubledNode : NodeRef) :
    GetFrameResult :=
  let frameNumber := if top = UINT_FAST32_MAX then bottom else top
  let src := api.getFrameFilter frameNumber linedoubledNode
  let dst := copyFrame src
  let props := mapSetInt dst.props "IVTCDN_Fields" 1
  { frame := some { dst with props := finishProps d n props }
    requested := []
    fetched := [(frameNumber, linedoubledNode)] }

/-- The function `ivtcGetFrame`.  The result is `none` when
`fieldsForFrames.at(n)` throws `std::out_of_range`.  The test
`linedoubledNode == nullptr || (top != MAX && bottom != MAX)` is the case
distinction on `linedoubledNode` followed by the test of the two sides. -/
def ivtcGetFrame (d : IvtcData) (api : VSAPI) (n : Nat)
    (activationReason : ActivationReason) : Option GetFrameResult :=
  match d.fieldsForFrames[n]? with
  | none => none
  | some requiredFields =>
    if requiredFields = EMPTY_PAIR then
      some { frame := none, requested := [], fetched := [] }
    else
      match activationReason with
      | ActivationReason.arInitial =>
        if requiredFields.1 ≠ UINT_FAST32_MAX ∧ requiredFields.2 ≠ UINT_FAST32_MAX then
          some { frame := none
                 requested := [(requiredFields.1, d.videoNode), (requiredFields.2, d.videoNode)]
                 fetched := [] }
        else
          let videoNode : NodeRef :=
            match d.linedoubledNode with
            | none => d.videoNode
            | some l => l
          if requiredFields.1 ≠ UINT_FAST32_MAX then
            some { frame := none, requested := [(requiredFields.1, videoNode)], fetched := [] }
          else
            some { frame := none, requested := [(requiredFields.2, videoNode)], fetched := [] }
      | ActivationReason.arAllFramesReady =>
        let top := requiredFields.1
        let bottom := requiredFields.2
        match d.linedoubledNode with
        | none => some (weaveBranch d api n top bottom)
        | some linedoubledNode =>
          if top ≠ UINT_FAST32_MAX ∧ bottom ≠ UINT_FAST32_MAX then
            some (weaveBranch d api n top bottom)
          else
            some (copyBranch d api n top bottom linedoubledNode)
      | ActivationReason.arError =>
        some { frame := none, requested := [], fetched := [] }

/-- The same iterations numbered by the output frame: frame `k` is frame
`k % 4` of cycle `k / 4`.  `flatLoop p k` is the state after the first `k`
output frames. -/
def flatLoop (p : Project) : Nat → LoopState
  | 0 => LoopState.init
  | k + 1 => frameStep p (k / 4) (k % 4) (flatLoop p k)

/-- The action log is short enough for the `int` arithmetic of the loop. -/
def InIntRange (p : Project) : Prop := p.ivtc_actions.length + 10 ≤ INT_MAX

instance (p : Project) : Decidable (InIntRange p) := by
  unfold InIntRange; infer_instance

/-- Position `i` is the first occurrence of `v` in `xs`. -/
def IsFirstPos (xs : List Int) (v : Int) (i : Nat) : Prop :=
  xs[i]? = some v ∧ ∀ j, j < i → xs[j]? ≠ some v

instance (xs : List Int) (v : Int) (i : Nat) : Decidable (IsFirstPos xs v i) := by
  unfold IsFirstPos; infer_instance

/-- Side of a field pair selected for role code `v`: `base + i` when `i` is the
first position of `v` in the window, `UINT_FAST32_MAX` when `v` does not occur. -/
def IsSide (xs : List Int) (v : Int) (base s : Nat) : Prop :=
  (v ∉ xs ∧ s = UINT_FAST32_MAX) ∨ ∃ i, IsFirstPos xs v i ∧ s = base + i

/-- Side computed by the code from a position `pos` (or `-1`) in the window. -/
def sideAt (base : Nat) (pos : Int) : Nat :=
  if pos = -1 then UINT_FAST32_MAX else ((base : Int) + pos).toNat

/-- Neither role code of frame `f` occurs in the window of cycle `c`, and the
carry lookahead (frame 3 with action `10 * (c + 1)` present and equal to 9) does
not apply. -/
def NoMatch (p : Project) (c f : Nat) : Prop :=
  ((2 * f : Nat) : Int) ∉ cycleActions p c ∧ ((2 * f + 1 : Nat) : Int) ∉ cycleActions p c
    ∧ ¬ (f = 3 ∧ p.ivtc_actions[10 * (c + 1)]? = some 9)

instance (p : Project) (c f : Nat) : Decidable (NoMatch p c f) := by
  unfold NoMatch; infer_instance

/-- Frame `f` of cycle `c` resolves to the pair `P` by role match (first
alternative: some role code occurs, the top code occurs or there is no carry
marker ahead of frame 3) or by carry (second alternative: frame 3, top code
absent, carry marker ahead; the top side is `10 * (c + 1)`, the bottom side its
role match if any). -/
def Resolves (p : Project) (c f : Nat) (P : Nat × Nat) : Prop :=
  ((((2 * f : Nat) : Int) ∈ cycleActions p c ∨ ((2 * f + 1 : Nat) : Int) ∈ cycleActions p c)
      ∧ ¬ (f = 3 ∧ ((2 * f : Nat) : Int) ∉ cycleActions p c
            ∧ p.ivtc_actions[10 * (c + 1)]? = some 9)
      ∧ IsSide (cycleActions p c) ((2 * f : Nat) : Int) (10 * c) P.1
      ∧ IsSide (cycleActions p c) ((2 * f + 1 : Nat) : Int) (10 * c) P.2)
  ∨ (f = 3 ∧ ((2 * f : Nat) : Int) ∉ cycleActions p c
      ∧ p.ivtc_actions[10 * (c + 1)]? = some 9
      ∧ P.1 = 10 * (c + 1)
      ∧ IsSide (cycleActions p c) ((2 * f + 1 : Nat) : Int) (10 * c) P.2)

/-- A video info used in the worked instances: three planes of 8-bit samples,
720 x 240 fields at 60000/1001 fields per second. -/
def sampleInfo : VSVideoInfo :=
  { format := { numPlanes := 3, bytesPerSample := 1 }
    fpsNum := 60000
    fpsDen := 1001
    width := 720
    height := 240
    numFrames := 1000 }

/-- A small video info used in the worked instances of frame synthesis: one
plane of 8-bit samples, 4 x 2 fields. -/
def tinyInfo : VSVideoInfo :=
  { format := { numPlanes := 1, bytesPerSample := 1 }
    fpsNum := 60000
    fpsDen := 1001
    width := 4
    height := 2
    numFrames := 10 }

/-- An API instance for `tinyInfo`: frame `i` of the clip has planes of 4 x 2
samples with stride 8 whose byte at offset `a` is `(16 * i + a) % 256`, frame
`i` of the linedoubled clip has 4 x 4 planes whose bytes are `(3 * i + a) % 256`;
new planes take their dimensions from the request, have stride 8 and are zeroed. -/
def tinyAPI : VSAPI :=
  { getFrameFilter := fun i node =>
      match node with
      | NodeRef.clip =>
        { format := { numPlanes := 1, bytesPerSample := 1 }
          planes := fun _ => ⟨4, 2, 8, fun a => (16 * i + a) % 256⟩
          props := fun _ => none }
      | NodeRef.linedoubled =>
        { format := { numPlanes := 1, bytesPerSample := 1 }
          planes := fun _ => ⟨4, 4, 8, fun a => (3 * i + a) % 256⟩
          props := fun _ => none }
    allocPlane := fun _ width height _ => ⟨width.toNat, height.toNat, 8, fun _ => 0⟩ }

/-- Filter data compiled from one complete cycle `[0,1,2,3,4,5,8,7,8,8]` (frame
3 has only its bottom field), without a linedoubled clip. -/
def tinyData : IvtcData :=
  ivtcCreate tinyInfo false ⟨[0, 1, 2, 3, 4, 5, 8, 7, 8, 8], fun _ => none⟩

/-- The same filter data with a linedoubled clip. -/
def tinyDataLd : IvtcData :=
  ivtcCreate tinyInfo true ⟨[0, 1, 2, 3, 4, 5, 8, 7, 8, 8], fun _ => none⟩

/-- A pair whose two sides, when both concrete, are different field positions. -/
def GoodPair (P : Nat × Nat) : Prop :=
  P.1 ≠ UINT_FAST32_MAX → P.2 ≠ UINT_FAST32_MAX → P.1 ≠ P.2

/-- Filter data whose plan holds `EMPTY_PAIR` at index 1, for the worked
instance of the refusal test of `ivtcGetFrame`. -/
def emptyEntryData : IvtcData :=
  { videoNode := NodeRef.clip
    vi := tinyInfo
    fieldsForFrames := [(0, 1), EMPTY_PAIR]
    freezeFrameHandling := fun _ => none
    linedoubledNode := some NodeRef.linedoubled }

/-- The values taken by `activeFrame = cycleIdx * 4 + frameIdx`, in the order
in which the double loop of `ivtcCreate` computes them. -/
def visitedFrames (p : Project) : List Nat :=
  (List.range (totalCycles p)).foldl
    (fun acc cycleIdx =>
      (List.range (frameCountInCycle p cycleIdx)).foldl
        (fun acc2 frameIdx => acc2 ++ [cycleIdx * 4 + frameIdx]) acc)
    []

/-- State of the double loop at the head of the inner loop with
`frameIdx = m` in cycle `cycleIdx = c`: the cycles before `c` are done, and so
are the first `m` frames of cycle `c`. -/
def loopPrefix (p : Project) (c m : Nat) : LoopState :=
  (List.range m).foldl (fun s frameIdx => frameStep p c frameIdx s)
    ((List.range c).foldl (cycleStep p) LoopState.init)

/-- The pair `P` points at the actions of frame `f` of cycle `c`: a concrete
top side is a position of cycle `c` that holds the code `2 * f`, or it is
`10 * (c + 1)`, holding the carry marker 9, for `f = 3`; a concrete bottom side
is a position of cycle `c` that holds the code `2 * f + 1`. -/
def FormedAt (p : Project) (c f : Nat) (P : Nat × Nat) : Prop :=
  (P.1 ≠ UINT_FAST32_MAX →
    (p.ivtc_actions[P.1]? = some ((2 * f : Nat) : Int) ∧ 10 * c ≤ P.1 ∧ P.1 < 10 * c + 10)
    ∨ (f = 3 ∧ P.1 = 10 * (c + 1) ∧ p.ivtc_actions[P.1]? = some 9))
  ∧ (P.2 ≠ UINT_FAST32_MAX →
    p.ivtc_actions[P.2]? = some ((2 * f + 1 : Nat) : Int) ∧ 10 * c ≤ P.2 ∧ P.2 < 10 * c + 10)

/-! ## Basic facts about `std::find` -/

theorem stdFind_le (xs : List Int) (v : Int) : stdFind xs v ≤ xs.length := by
  induction xs with
  | nil => simp [stdFind]
  | cons x xs ih =>
    unfold stdFind
    split
    · simp
    · simpa using ih

theorem stdFind_eq_length_iff (xs : List Int) (v : Int) :
    stdFind xs v = xs.length ↔ v ∉ xs := by
  induction xs with
  | nil => simp [stdFind]
  | cons x xs ih =>
    unfold stdFind
    by_cases h : x = v
    · simp [h]
    · have h2 : ¬ v = x := fun e => h e.symm
      simp [h, h2, ih]

theorem stdFind_getElem? (xs : List Int) (v : Int) (h : v ∈ xs) :
    xs[stdFind xs v]? = some v := by
  induction xs with
  | nil => simp at h
  | cons x xs ih =>
    unfold stdFind
    by_cases hx : x = v
    · simp [hx]
    · have h2 : ¬ v = x := fun e => hx e.symm
      simp only [List.mem_cons, h2, false_or] at h
      simp [hx, ih h]

theorem stdFind_first (xs : List Int) (v : Int) (j : Nat) (hj : j < stdFind xs v) :
    xs[j]? ≠ some v := by
  induction xs generalizing j with
  | nil => simp [stdFind] at hj
  | cons x xs ih =>
    unfold stdFind at hj
    by_cases hx : x = v
    · simp [hx] at hj
    · simp only [hx, if_false] at hj
      cases j with
      | zero => simpa using hx
      | succ j => simpa using ih j (by omega)

theorem stdFind_isFirstPos (xs : List Int) (v : Int) (h : v ∈ xs) :
    IsFirstPos xs v (stdFind xs v) :=
  ⟨stdFind_getElem? xs v h, fun j hj => stdFind_first xs v j hj⟩

theorem IsFirstPos.unique {xs : List Int} {v : Int} {i k : Nat}
    (hi : IsFirstPos xs v i) (hk : IsFirstPos xs v k) : i = k := by
  rcases Nat.lt_trichotomy i k with h | h | h
  · exact absurd hi.1 (hk.2 i h)
  · exact h
  · exact absurd hk.1 (hi.2 k h)

theorem IsFirstPos.mem {xs : List Int} {v : Int} {i : Nat} (hi : IsFirstPos xs v i) :
    v ∈ xs := by
  have h := hi.1
  rw [List.getElem?_eq_some] at h
  obtain ⟨hlt, he⟩ := h
  exact he ▸ List.getElem_mem hlt

theorem IsFirstPos.lt {xs : List Int} {v : Int} {i : Nat} (hi : IsFirstPos xs v i) :
    i < xs.length := by
  have h := hi.1
  rw [List.getElem?_eq_some] at h
  exact h.1

theorem findIndex_eq_neg_one (xs : List Int) (v : Int) :
    findIndex xs v = -1 ↔ v ∉ xs := by
  unfold findIndex
  by_cases h : stdFind xs v = xs.length
  · simp [h, (stdFind_eq_length_iff xs v).1 h]
  · have hm : v ∈ xs := by
      by_contra hc
      exact h ((stdFind_eq_length_iff xs v).2 hc)
    simp only [h, if_false, hm, not_true_eq_false, iff_false]
    omega

theorem findIndex_of_mem (xs : List Int) (v : Int) (h : v ∈ xs) :
    findIndex xs v = (stdFind xs v : Int) := by
  unfold findIndex
  have : stdFind xs v ≠ xs.length := fun e => ((stdFind_eq_length_iff xs v).1 e) h
  simp [this]

theorem findIndex_of_firstPos {xs : List Int} {v : Int} {i : Nat}
    (hi : IsFirstPos xs v i) : findIndex xs v = (i : Int) := by
  rw [findIndex_of_mem xs v hi.mem, (stdFind_isFirstPos xs v hi.mem).unique hi]

/-! ## The double loop visits the output frames in order -/

theorem frameCountInCycle_complete (p : Project) (c : Nat) (h : c < completeCycles p) :
    frameCountInCycle p c = 4 := by
  unfold frameCountInCycle actionCountInCycle
  simp [Nat.ne_of_lt h]

theorem frameCountInCycle_last (p : Project) :
    frameCountInCycle p (completeCycles p) = fieldsWithIncompleteCycles p * 2 / 5 := by
  unfold frameCountInCycle actionCountInCycle
  simp

theorem fieldsWithIncompleteCycles_lt (p : Project) : fieldsWithIncompleteCycles p < 10 := by
  unfold fieldsWithIncompleteCycles
  omega

theorem foldl_frames (p : Project) (c m : Nat) (hm : m ≤ 4) :
    (List.range m).foldl (fun s frameIdx => frameStep p c frameIdx s) (flatLoop p (4 * c))
      = flatLoop p (4 * c + m) := by
  induction m with
  | zero => rfl
  | succ m ih =>
    rw [List.range_succ, List.foldl_append, ih (by omega)]
    have h1 : (4 * c + m) / 4 = c := by omega
    have h2 : (4 * c + m) % 4 = m := by omega
    show _ = flatLoop p ((4 * c + m) + 1)
    simp [flatLoop, h1, h2]

theorem cycleStep_flat (p : Project) (c : Nat) (h : frameCountInCycle p c ≤ 4) :
    cycleStep p (flatLoop p (4 * c)) c = flatLoop p (4 * c + frameCountInCycle p c) := by
  unfold cycleStep
  exact foldl_frames p c _ h

theorem foldl_cycles (p : Project) (c : Nat) (hc : c ≤ completeCycles p) :
    (List.range c).foldl (cycleStep p) LoopState.init = flatLoop p (4 * c) := by
  induction c with
  | zero => rfl
  | succ c ih =>
    rw [List.range_succ, List.foldl_append, ih (by omega)]
    have h4 := frameCountInCycle_complete p c (by omega)
    simp only [List.foldl_cons, List.foldl_nil]
    rw [cycleStep_flat p c (by omega), h4]
    rfl

theorem compileLoop_eq_flatLoop (p : Project) :
    compileLoop p = flatLoop p (outputFrameCount p) := by
  unfold compileLoop totalCycles outputFrameCount
  have hr := fieldsWithIncompleteCycles_lt p
  by_cases h0 : fieldsWithIncompleteCycles p = 0
  · rw [if_pos h0, foldl_cycles p _ (le_refl _), h0]
    congr 1
    omega
  · rw [if_neg h0, List.range_succ, List.foldl_append, foldl_cycles p _ (le_refl _)]
    simp only [List.foldl_cons, List.foldl_nil]
    have hl := frameCountInCycle_last p
    rw [cycleStep_flat p _ (by omega), hl]
    congr 1
    omega

/-- Frame `f` of cycle `c` is output frame `4 * c + f`, and it is one of the
`outputFrameCount` frames of the loop. -/
theorem frame_index_lt (p : Project) (c f : Nat) (hc : c < totalCycles p)
    (hf : f < frameCountInCycle p c) :
    f < 4 ∧ 4 * c + f < outputFrameCount p := by
  have hr := fieldsWithIncompleteCycles_lt p
  unfold totalCycles at hc
  unfold outputFrameCount
  by_cases hcc : c < completeCycles p
  · rw [frameCountInCycle_complete p c hcc] at hf
    omega
  · have hceq : c = completeCycles p := by
      split at hc <;> omega
    subst hceq
    rw [frameCountInCycle_last] at hf
    omega

/-! ## Invariants of the loop -/

theorem pushStep_last (st : LoopState) :
    (pushStep st).lastSpecifiedFrame = st.lastSpecifiedFrame := by
  unfold pushStep
  split <;> rfl

theorem pushStep_freeze (st : LoopState) :
    (pushStep st).freezeFrameHandling = st.freezeFrameHandling := by
  unfold pushStep
  split <;> rfl

theorem matchStep_fields (p : Project) (c f : Nat) (st : LoopState) :
    (matchStep p c f st).fieldsForFrames = st.fieldsForFrames := by
  unfold matchStep
  simp only
  split_ifs <;> rfl

theorem matchStep_pushCount (p : Project) (c f : Nat) (st : LoopState) :
    (matchStep p c f st).pushCount = st.pushCount := by
  unfold matchStep
  simp only
  split_ifs <;> rfl

theorem flatLoop_last (p : Project) (k : Nat) :
    (flatLoop p (k + 1)).lastSpecifiedFrame
      = (matchStep p (k / 4) (k % 4) (flatLoop p k)).lastSpecifiedFrame := by
  show (pushStep _).lastSpecifiedFrame = _
  rw [pushStep_last]

theorem flatLoop_push (p : Project) (k : Nat)
    (h : (flatLoop p (k + 1)).lastSpecifiedFrame ≠ EMPTY_PAIR) :
    (flatLoop p (k + 1)).fieldsForFrames
        = (flatLoop p k).fieldsForFrames
          ++ List.replicate (flatLoop p k).pushCount (flatLoop p (k + 1)).lastSpecifiedFrame
      ∧ (flatLoop p (k + 1)).pushCount = 1 := by
  rw [flatLoop_last] at h ⊢
  show (pushStep _).fieldsForFrames = _ ∧ (pushStep _).pushCount = 1
  unfold pushStep
  rw [if_neg h]
  simp [matchStep_fields, matchStep_pushCount]

theorem flatLoop_pending (p : Project) (k : Nat)
    (h : (flatLoop p (k + 1)).lastSpecifiedFrame = EMPTY_PAIR) :
    (flatLoop p (k + 1)).fieldsForFrames = (flatLoop p k).fieldsForFrames
      ∧ (flatLoop p (k + 1)).pushCount = (flatLoop p k).pushCount + 1 := by
  rw [flatLoop_last] at h
  show (pushStep _).fieldsForFrames = _ ∧ (pushStep _).pushCount = _
  unfold pushStep
  rw [if_pos h]
  simp [matchStep_fields, matchStep_pushCount]

/-- Pending-counter invariant: plan length plus the frames still pending is the
number of frames processed. -/
theorem flatLoop_count (p : Project) (k : Nat) :
    (flatLoop p k).fieldsForFrames.length + (flatLoop p k).pushCount = k + 1
      ∧ 1 ≤ (flatLoop p k).pushCount := by
  induction k with
  | zero => simp [flatLoop, LoopState.init]
  | succ k ih =>
    by_cases h : (flatLoop p (k + 1)).lastSpecifiedFrame = EMPTY_PAIR
    · obtain ⟨h1, h2⟩ := flatLoop_pending p k h
      rw [h1, h2]
      omega
    · obtain ⟨h1, h2⟩ := flatLoop_push p k h
      rw [h1, h2]
      simp only [List.length_append, List.length_replicate]
      omega

theorem flatLoop_extends_succ (p : Project) (k : Nat) :
    (flatLoop p k).fieldsForFrames <+: (flatLoop p (k + 1)).fieldsForFrames := by
  by_cases h : (flatLoop p (k + 1)).lastSpecifiedFrame = EMPTY_PAIR
  · rw [(flatLoop_pending p k h).1]
  · rw [(flatLoop_push p k h).1]
    exact List.prefix_append _ _

theorem flatLoop_extends (p : Project) (k m : Nat) :
    (flatLoop p k).fieldsForFrames <+: (flatLoop p (k + m)).fieldsForFrames := by
  induction m with
  | zero => exact List.prefix_refl _
  | succ m ih => exact ih.trans (flatLoop_extends_succ p (k + m))

theorem getElem?_of_extends {α : Type} {xs ys : List α} (h : xs <+: ys) {i : Nat} {a : α}
    (hi : xs[i]? = some a) : ys[i]? = some a := by
  obtain ⟨t, rfl⟩ := h
  rw [List.getElem?_eq_some] at hi
  obtain ⟨hlt, _⟩ := hi
  rw [List.getElem?_append_left hlt]
  exact List.getElem?_eq_some.2 ⟨hlt, by assumption⟩

/-- A frame `k` that leaves a non-empty `lastSpecifiedFrame` fixes the plan
entries of all frames from the current plan length up to `k`, for good. -/
theorem plan_entry_of_push (p : Project) (k i N : Nat) (hk : k < N)
    (hne : (flatLoop p (k + 1)).lastSpecifiedFrame ≠ EMPTY_PAIR)
    (hlo : (flatLoop p k).fieldsForFrames.length ≤ i) (hi : i ≤ k) :
    (flatLoop p N).fieldsForFrames[i]? = some (flatLoop p (k + 1)).lastSpecifiedFrame := by
  have hpre : (flatLoop p (k + 1)).fieldsForFrames <+: (flatLoop p N).fieldsForFrames := by
    have := flatLoop_extends p (k + 1) (N - (k + 1))
    rwa [show k + 1 + (N - (k + 1)) = N by omega] at this
  apply getElem?_of_extends hpre
  rw [(flatLoop_push p k hne).1, List.getElem?_append_right hlo, List.getElem?_replicate]
  have hc := flatLoop_count p k
  rw [if_pos (by omega)]

/-- The plan length does not grow over a run of frames that all leave
`lastSpecifiedFrame` empty. -/
theorem length_of_pending_run (p : Project) (n m : Nat)
    (hrun : ∀ j, n ≤ j → j < n + m → (flatLoop p (j + 1)).lastSpecifiedFrame = EMPTY_PAIR) :
    (flatLoop p (n + m)).fieldsForFrames.length ≤ n := by
  induction m with
  | zero =>
    have hc := flatLoop_count p n
    simp only [Nat.add_zero]
    omega
  | succ m ih =>
    have h1 := (flatLoop_pending p (n + m) (hrun (n + m) (by omega) (by omega))).1
    rw [show n + (m + 1) = n + m + 1 by omega, h1]
    exact ih (fun j h1 h2 => hrun j h1 (by omega))

/-! ## What one frame does to `lastSpecifiedFrame` -/

theorem top_code (f : Nat) (hf : f < 4) : TOP_FRAMES.getD f 0 = ((2 * f : Nat) : Int) := by
  interval_cases f <;> rfl

theorem bottom_code (f : Nat) (hf : f < 4) :
    BOTTOM_FRAMES.getD f 0 = ((2 * f + 1 : Nat) : Int) := by
  interval_cases f <;> rfl

theorem cycleActions_getElem? (p : Project) (c i : Nat) (hi : i < (cycleActions p c).length) :
    (cycleActions p c)[i]? = p.ivtc_actions[c * 10 + i]?
      ∧ c * 10 + i < p.ivtc_actions.length := by
  unfold cycleActions at hi ⊢
  simp only [List.length_take, List.length_drop] at hi
  rw [List.getElem?_take, if_pos (by omega), List.getElem?_drop]
  exact ⟨rfl, by omega⟩

theorem carryAhead_iff (p : Project) (c f : Nat) :
    carryAhead p c f = true ↔ f = 3 ∧ p.ivtc_actions[10 * (c + 1)]? = some 9 := by
  unfold carryAhead COMPLETE_PREVIOUS_CYCLE
  rw [show 10 * (c + 1) = c * 10 + 10 by omega]
  by_cases hlt : c * 10 + 10 < p.ivtc_actions.length
  · simp [hlt, List.getD_eq_getElem?_getD, List.getElem?_eq_getElem hlt]
  · have : p.ivtc_actions[c * 10 + 10]? = none := List.getElem?_eq_none (by omega)
    simp [hlt, this]

theorem isSide_eq_sideAt {xs : List Int} {v : Int} {base s : Nat} (h : IsSide xs v base s) :
    s = sideAt base (findIndex xs v) := by
  unfold sideAt
  rcases h with ⟨hn, rfl⟩ | ⟨i, hi, rfl⟩
  · rw [if_pos ((findIndex_eq_neg_one xs v).2 hn)]
  · rw [findIndex_of_firstPos hi, if_neg (by omega)]
    omega

theorem sideAt_lt_of_mem (p : Project) (c : Nat) (v : Int) (hm : v ∈ cycleActions p c) :
    sideAt (c * 10) (findIndex (cycleActions p c) v) < p.ivtc_actions.length := by
  have hfp := stdFind_isFirstPos _ _ hm
  have hb := (cycleActions_getElem? p c _ hfp.lt).2
  unfold sideAt
  rw [findIndex_of_mem _ _ hm, if_neg (by omega)]
  omega

theorem inIntRange_lt (p : Project) (h : InIntRange p) :
    p.ivtc_actions.length < UINT_FAST32_MAX := by
  unfold InIntRange INT_MAX at h
  unfold UINT_FAST32_MAX
  omega

/-- Role match without carry: the pair is made of the two sides. -/
theorem matchStep_role (p : Project) (c f : Nat) (st : LoopState)
    (hfound : topOf p c f ≠ -1 ∨ bottomOf p c f ≠ -1)
    (hnc : ¬ (topOf p c f = -1 ∧ carryAhead p c f = true)) :
    (matchStep p c f st).lastSpecifiedFrame
      = (sideAt (c * 10) (topOf p c f), sideAt (c * 10) (bottomOf p c f)) := by
  unfold matchStep sideAt
  simp only
  by_cases ht : topOf p c f = -1
  · have hb : bottomOf p c f ≠ -1 := by
      rcases hfound with h | h
      · exact absurd ht h
      · exact h
    have hca : ¬ carryAhead p c f = true := fun h => hnc ⟨ht, h⟩
    simp [ht, hb, hca]
  · by_cases hb : bottomOf p c f = -1
    · simp [ht, hb]
    · simp [ht, hb]

/-- Bottom-only match with the carry marker ahead. -/
theorem matchStep_carry_bottom (p : Project) (c f : Nat) (st : LoopState)
    (ht : topOf p c f = -1) (hb : bottomOf p c f ≠ -1) (hca : carryAhead p c f = true) :
    (matchStep p c f st).lastSpecifiedFrame
      = (c * 10 + 10, sideAt (c * 10) (bottomOf p c f)) := by
  unfold matchStep sideAt
  simp [ht, hb, hca]

/-- No match with the carry marker ahead. -/
theorem matchStep_carry_none (p : Project) (c f : Nat) (st : LoopState)
    (ht : topOf p c f = -1) (hb : bottomOf p c f = -1) (hca : carryAhead p c f = true) :
    (matchStep p c f st).lastSpecifiedFrame = (c * 10 + 10, UINT_FAST32_MAX) := by
  unfold matchStep
  simp [ht, hb, hca]

/-- No match, no carry, override "Next". -/
theorem matchStep_next (p : Project) (c f : Nat) (st : LoopState)
    (ht : topOf p c f = -1) (hb : bottomOf p c f = -1) (hca : ¬ carryAhead p c f = true)
    (hnx : p.no_match_handling (toString (c * 4 + f)) = some "Next") :
    (matchStep p c f st).lastSpecifiedFrame = EMPTY_PAIR
      ∧ (matchStep p c f st).freezeFrameHandling
          = mapSet st.freezeFrameHandling (c * 4 + f) "Next" := by
  unfold matchStep
  simp [ht, hb, hca, hnx]

/-- No match, no carry, no override "Next". -/
theorem matchStep_previous (p : Project) (c f : Nat) (st : LoopState)
    (ht : topOf p c f = -1) (hb : bottomOf p c f = -1) (hca : ¬ carryAhead p c f = true)
    (hnx : p.no_match_handling (toString (c * 4 + f)) ≠ some "Next") :
    (matchStep p c f st).lastSpecifiedFrame = st.lastSpecifiedFrame
      ∧ (matchStep p c f st).freezeFrameHandling
          = mapSet st.freezeFrameHandling (c * 4 + f) "Previous" := by
  unfold matchStep
  simp [ht, hb, hca, hnx]

theorem pair_ne_empty_left {a b : Nat} (h : a ≠ UINT_FAST32_MAX) : (a, b) ≠ EMPTY_PAIR := by
  unfold EMPTY_PAIR
  intro e
  exact h (Prod.ext_iff.1 e).1

theorem pair_ne_empty_right {a b : Nat} (h : b ≠ UINT_FAST32_MAX) : (a, b) ≠ EMPTY_PAIR := by
  unfold EMPTY_PAIR
  intro e
  exact h (Prod.ext_iff.1 e).2

/-- The entry of frame `n` once that frame leaves a non-empty pair `P`. -/
theorem plan_at_of_last (p : Project) (n : Nat) (hn : n < outputFrameCount p) (P : Nat × Nat)
    (hP : (matchStep p (n / 4) (n % 4) (flatLoop p n)).lastSpecifiedFrame = P)
    (hne : P ≠ EMPTY_PAIR) :
    (compileLoop p).fieldsForFrames[n]? = some P := by
  rw [compileLoop_eq_flatLoop]
  have hl := flatLoop_last p n
  rw [hP] at hl
  have hc := flatLoop_count p n
  have := plan_entry_of_push p n n (outputFrameCount p) hn (by rw [hl]; exact hne)
    (by omega) (le_refl _)
  rwa [hl] at this

/-! ## Role-match resolution -/

theorem ivtcCreate_fields (vi : VSVideoInfo) (ld : Bool) (p : Project) :
    (ivtcCreate vi ld p).fieldsForFrames = (compileLoop p).fieldsForFrames := rfl

theorem ivtcCreate_freeze (vi : VSVideoInfo) (ld : Bool) (p : Project) :
    (ivtcCreate vi ld p).freezeFrameHandling = (compileLoop p).freezeFrameHandling := rfl

/-- The pair left by a frame with a role match and no carry, in terms of the
first positions of its two role codes. -/
theorem role_pair (p : Project) (c f t b : Nat) (st : LoopState) (hf : f < 4)
    (hfound : ((2 * f : Nat) : Int) ∈ cycleActions p c
      ∨ ((2 * f + 1 : Nat) : Int) ∈ cycleActions p c)
    (hnc : ¬ (f = 3 ∧ ((2 * f : Nat) : Int) ∉ cycleActions p c
      ∧ ((2 * f + 1 : Nat) : Int) ∈ cycleActions p c
      ∧ p.ivtc_actions[10 * (c + 1)]? = some 9))
    (ht : IsSide (cycleActions p c) ((2 * f : Nat) : Int) (10 * c) t)
    (hb : IsSide (cycleActions p c) ((2 * f + 1 : Nat) : Int) (10 * c) b) :
    (matchStep p c f st).lastSpecifiedFrame = (t, b) := by
  have hT : topOf p c f = findIndex (cycleActions p c) ((2 * f : Nat) : Int) := by
    unfold topOf; rw [top_code f hf]
  have hB : bottomOf p c f = findIndex (cycleActions p c) ((2 * f + 1 : Nat) : Int) := by
    unfold bottomOf; rw [bottom_code f hf]
  have hfound2 : topOf p c f ≠ -1 ∨ bottomOf p c f ≠ -1 := by
    rw [hT, hB]
    rcases hfound with h | h
    · exact Or.inl (fun e => (findIndex_eq_neg_one _ _).1 e h)
    · exact Or.inr (fun e => (findIndex_eq_neg_one _ _).1 e h)
  have hnc2 : ¬ (topOf p c f = -1 ∧ carryAhead p c f = true) := by
    rintro ⟨h1, h2⟩
    rw [hT] at h1
    have htop := (findIndex_eq_neg_one _ _).1 h1
    obtain ⟨h3, h9⟩ := (carryAhead_iff p c f).1 h2
    have hbot : ((2 * f + 1 : Nat) : Int) ∈ cycleActions p c := by
      rcases hfound with h | h
      · exact absurd h htop
      · exact h
    exact hnc ⟨h3, htop, hbot, h9⟩
  rw [matchStep_role p c f st hfound2 hnc2, hT, hB, isSide_eq_sideAt ht, isSide_eq_sideAt hb,
    show c * 10 = 10 * c by omega]

/-- A pair with a side taken from a code present in the window is not `EMPTY_PAIR`. -/
theorem isSide_ne_max (p : Project) (c : Nat) (v : Int) (s : Nat) (hr : InIntRange p)
    (hm : v ∈ cycleActions p c) (hs : IsSide (cycleActions p c) v (10 * c) s) :
    s ≠ UINT_FAST32_MAX := by
  have h1 := sideAt_lt_of_mem p c v hm
  have h2 := inIntRange_lt p hr
  rw [isSide_eq_sideAt hs, show 10 * c = c * 10 by omega]
  omega

/-- C1. Role-match resolution: for every action log within the `int` range and
every output frame `4 * c + f` of the loop for which at least one of the role
codes `2 * f`, `2 * f + 1` occurs in the window of cycle `c`, and to which the
cross-cycle carry (frame 3, only the bottom code found, action `10 * (c + 1)`
equal to 9) does not apply, the plan entry `4 * c + f` exists and is `(t, b)`,
where each side is `10 * c` plus the first position of its code in the window,
or `UINT_FAST32_MAX` when the code is absent.  In particular the log
`[0,1,2,3,4,5,6,7]` compiles to `[(0,1), (2,3), (4,5)]`. -/
theorem role_match_resolution :
    (∀ (vi : VSVideoInfo) (ld : Bool) (p : Project) (c f t b : Nat),
      InIntRange p → c < totalCycles p → f < frameCountInCycle p c →
      (((2 * f : Nat) : Int) ∈ cycleActions p c
        ∨ ((2 * f + 1 : Nat) : Int) ∈ cycleActions p c) →
      ¬ (f = 3 ∧ ((2 * f : Nat) : Int) ∉ cycleActions p c
        ∧ ((2 * f + 1 : Nat) : Int) ∈ cycleActions p c
        ∧ p.ivtc_actions[10 * (c + 1)]? = some 9) →
      IsSide (cycleActions p c) ((2 * f : Nat) : Int) (10 * c) t →
      IsSide (cycleActions p c) ((2 * f + 1 : Nat) : Int) (10 * c) b →
      (ivtcCreate vi ld p).fieldsForFrames[4 * c + f]? = some (t, b))
    ∧ ∀ (vi : VSVideoInfo) (ld : Bool) (nmh : String → Option String),
        (ivtcCreate vi ld ⟨[0, 1, 2, 3, 4, 5, 6, 7], nmh⟩).fieldsForFrames
          = [(0, 1), (2, 3), (4, 5)] := by
  refine ⟨?_, ?_⟩
  · intro vi ld p c f t b hr hc hf hfound hnc ht hb
    obtain ⟨hf4, hn⟩ := frame_index_lt p c f hc hf
    rw [ivtcCreate_fields]
    apply plan_at_of_last p (4 * c + f) hn
    · rw [show (4 * c + f) / 4 = c by omega, show (4 * c + f) % 4 = f by omega]
      exact role_pair p c f t b _ hf4 hfound hnc ht hb
    · rcases hfound with h | h
      · exact pair_ne_empty_left (isSide_ne_max p c _ t hr h ht)
      · exact pair_ne_empty_right (isSide_ne_max p c _ b hr h hb)
  · intro vi ld nmh
    rw [ivtcCreate_fields]
    simp [compileLoop, totalCycles, fieldsWithIncompleteCycles, completeCycles, expectedFields,
      cycleStep, frameCountInCycle, actionCountInCycle, List.range_succ, frameStep, matchStep,
      pushStep, topOf, bottomOf, cycleActions, findIndex, stdFind, TOP_FRAMES, BOTTOM_FRAMES,
      LoopState.init, EMPTY_PAIR, UINT_FAST32_MAX]

/-- Instance of C1: frame 1 of the log `[2, 8, 8, 3, 8]` has its top code 2 at
position 0 and its bottom code 3 at position 3, so the entry is `(0, 3)`. -/
theorem role_match_resolution_witness :
    (ivtcCreate ⟨⟨3, 1⟩, 30000, 1001, 720, 240, 5⟩ false
      ⟨[2, 8, 8, 3, 8], fun _ => none⟩).fieldsForFrames[4 * 0 + 1]? = some (0, 3) :=
  role_match_resolution.1 ⟨⟨3, 1⟩, 30000, 1001, 720, 240, 5⟩ false
    ⟨[2, 8, 8, 3, 8], fun _ => none⟩ 0 1 0 3
    (by decide) (by decide) (by decide) (by decide) (by decide)
    (Or.inr ⟨0, by decide, rfl⟩) (Or.inr ⟨3, by decide, rfl⟩)

/-! ## Deferred frames and carry -/

theorem noMatch_tops (p : Project) (c f : Nat) (hf : f < 4) (h : NoMatch p c f) :
    topOf p c f = -1 ∧ bottomOf p c f = -1 ∧ ¬ carryAhead p c f = true := by
  obtain ⟨h1, h2, h3⟩ := h
  refine ⟨?_, ?_, ?_⟩
  · unfold topOf; rw [top_code f hf]; exact (findIndex_eq_neg_one _ _).2 h1
  · unfold bottomOf; rw [bottom_code f hf]; exact (findIndex_eq_neg_one _ _).2 h2
  · rw [carryAhead_iff]; exact h3

/-- A frame that resolves leaves its pair in `lastSpecifiedFrame`, whatever the
state before. -/
theorem resolves_last (p : Project) (c f : Nat) (P : Nat × Nat) (st : LoopState) (hf : f < 4)
    (h : Resolves p c f P) : (matchStep p c f st).lastSpecifiedFrame = P := by
  rcases h with ⟨hfound, hnc, ht, hb⟩ | ⟨h3, htop, h9, h1, hb⟩
  · have := role_pair p c f P.1 P.2 st hf hfound (fun ⟨a, b, _, d⟩ => hnc ⟨a, b, d⟩) ht hb
    simpa using this
  · have hT : topOf p c f = -1 := by
      unfold topOf; rw [top_code f hf]; exact (findIndex_eq_neg_one _ _).2 htop
    have hB : bottomOf p c f = findIndex (cycleActions p c) ((2 * f + 1 : Nat) : Int) := by
      unfold bottomOf; rw [bottom_code f hf]
    have hca : carryAhead p c f = true := (carryAhead_iff p c f).2 ⟨h3, h9⟩
    have hside := isSide_eq_sideAt hb
    by_cases hbm : bottomOf p c f = -1
    · rw [matchStep_carry_none p c f st hT hbm hca]
      rw [hB] at hbm
      rw [hbm] at hside
      apply Prod.ext
      · simp only [h1]; omega
      · simp only [hside, sideAt, if_true]
    · rw [matchStep_carry_bottom p c f st hT hbm hca]
      apply Prod.ext
      · simp only [h1]; omega
      · simp only [hside, hB, show 10 * c = c * 10 by omega]

/-- A pair that a frame resolves to is never `EMPTY_PAIR`. -/
theorem resolves_ne_empty (p : Project) (c f : Nat) (P : Nat × Nat) (hr : InIntRange p)
    (h : Resolves p c f P) : P ≠ EMPTY_PAIR := by
  have hmax := inIntRange_lt p hr
  obtain ⟨a, b⟩ := P
  rcases h with ⟨hfound, _, ht, hb⟩ | ⟨_, _, h9, h1, _⟩
  · rcases hfound with h | h
    · exact pair_ne_empty_left (isSide_ne_max p c _ a hr h ht)
    · exact pair_ne_empty_right (isSide_ne_max p c _ b hr h hb)
  · apply pair_ne_empty_left
    rw [List.getElem?_eq_some] at h9
    obtain ⟨hlt, _⟩ := h9
    simp only at h1
    omega

/-- Frames `n .. m-1` leave `lastSpecifiedFrame` empty and frame `m` resolves to
`P`: the entries `n .. m` of the compiled plan are all `P`. -/
theorem backfill_of_run (p : Project) (n m : Nat) (P : Nat × Nat) (hr : InIntRange p)
    (hnm : n ≤ m) (hm : m < outputFrameCount p)
    (hrun : ∀ j, n ≤ j → j < m → (flatLoop p (j + 1)).lastSpecifiedFrame = EMPTY_PAIR)
    (hres : Resolves p (m / 4) (m % 4) P) :
    ∀ i, n ≤ i → i ≤ m → (compileLoop p).fieldsForFrames[i]? = some P := by
  intro i hi1 hi2
  have hlen : (flatLoop p m).fieldsForFrames.length ≤ n := by
    have := length_of_pending_run p n (m - n)
      (fun j h1 h2 => hrun j h1 (by omega))
    rwa [show n + (m - n) = m by omega] at this
  have hl : (flatLoop p (m + 1)).lastSpecifiedFrame = P := by
    rw [flatLoop_last]
    exact resolves_last p _ _ P _ (Nat.mod_lt _ (by decide)) hres
  have hne := resolves_ne_empty p _ _ P hr hres
  rw [compileLoop_eq_flatLoop]
  have := plan_entry_of_push p m i (outputFrameCount p) hm (by rw [hl]; exact hne)
    (by omega) hi2
  rwa [hl] at this

/-- C2. Deferred-"Next" backfill: when the frames `n, ..., m-1` have neither
role code in their cycle, no carry, and the override "Next", and frame `m`
resolves to the pair `(a, b)` by role match or carry, the plan entries of
`n, ..., m` all exist and equal `(a, b)`. -/
theorem deferred_next_backfill (vi : VSVideoInfo) (ld : Bool) (p : Project) (n m a b : Nat)
    (hr : InIntRange p) (hnm : n ≤ m) (hm : m < outputFrameCount p)
    (hdef : ∀ j, n ≤ j → j < m →
      NoMatch p (j / 4) (j % 4) ∧ p.no_match_handling (toString j) = some "Next")
    (hres : Resolves p (m / 4) (m % 4) (a, b)) :
    ∀ i, n ≤ i → i ≤ m → (ivtcCreate vi ld p).fieldsForFrames[i]? = some (a, b) := by
  rw [ivtcCreate_fields]
  apply backfill_of_run p n m (a, b) hr hnm hm _ hres
  intro j h1 h2
  obtain ⟨hno, hnx⟩ := hdef j h1 h2
  obtain ⟨ht, hb, hca⟩ := noMatch_tops p _ _ (Nat.mod_lt _ (by decide)) hno
  rw [flatLoop_last]
  have hkey : j / 4 * 4 + j % 4 = j := by omega
  exact (matchStep_next p _ _ _ ht hb hca (by rw [hkey]; exact hnx)).1

/-- Instance of C2 (Scenario B): ten actions, the roles 4 and 5 of frame 2
absent, override `"2" ↦ "Next"`, frame 3 resolving to `(6, 7)`: the entries of
frames 2 and 3 are both `(6, 7)`. -/
theorem deferred_next_backfill_witness :
    (ivtcCreate ⟨⟨3, 1⟩, 30000, 1001, 720, 240, 10⟩ false
        ⟨[0, 1, 2, 3, 8, 8, 6, 7, 8, 8],
          fun k => if k = "2" then some "Next" else none⟩).fieldsForFrames[2]? = some (6, 7)
    ∧ (ivtcCreate ⟨⟨3, 1⟩, 30000, 1001, 720, 240, 10⟩ false
        ⟨[0, 1, 2, 3, 8, 8, 6, 7, 8, 8],
          fun k => if k = "2" then some "Next" else none⟩).fieldsForFrames[3]? = some (6, 7) :=
  have h := deferred_next_backfill ⟨⟨3, 1⟩, 30000, 1001, 720, 240, 10⟩ false
    ⟨[0, 1, 2, 3, 8, 8, 6, 7, 8, 8], fun k => if k = "2" then some "Next" else none⟩
    2 3 6 7 (by decide) (by decide) (by decide)
    (by
      intro j h1 h2
      obtain rfl : j = 2 := by omega
      decide)
    (Or.inl ⟨by decide, by decide, Or.inr ⟨6, by decide, rfl⟩, Or.inr ⟨7, by decide, rfl⟩⟩)
  ⟨h 2 (by decide) (by decide), h 3 (by decide) (by decide)⟩

theorem complete_cycle_frame_lt (p : Project) (c f : Nat) (hc : c < completeCycles p)
    (hf : f < 4) : 4 * c + f < outputFrameCount p := by
  unfold outputFrameCount
  omega

/-- The entry of a frame that resolves to `P`. -/
theorem plan_at_of_resolves (p : Project) (c f : Nat) (P : Nat × Nat) (hr : InIntRange p)
    (hf : f < 4) (hn : 4 * c + f < outputFrameCount p) (h : Resolves p c f P) :
    (compileLoop p).fieldsForFrames[4 * c + f]? = some P := by
  apply plan_at_of_last p (4 * c + f) hn P _ (resolves_ne_empty p c f P hr h)
  rw [show (4 * c + f) / 4 = c by omega, show (4 * c + f) % 4 = f by omega]
  exact resolves_last p c f P _ hf h

/-- C3. Cross-cycle carry: in a complete cycle `c` whose frame 3 has only its
bottom role code 7 in the window, first at relative position `b`, and with the
action at index `10 * (c + 1)` present and equal to 9, the plan entry of frame
`4 * c + 3` is `(10 * (c + 1), 10 * c + b)`. -/
theorem cross_cycle_carry (vi : VSVideoInfo) (ld : Bool) (p : Project) (c b : Nat)
    (hr : InIntRange p) (hc : c < completeCycles p)
    (htop : (6 : Int) ∉ cycleActions p c)
    (hb : IsFirstPos (cycleActions p c) 7 b)
    (h9 : p.ivtc_actions[10 * (c + 1)]? = some 9) :
    (ivtcCreate vi ld p).fieldsForFrames[4 * c + 3]? = some (10 * (c + 1), 10 * c + b) := by
  rw [ivtcCreate_fields]
  apply plan_at_of_resolves p c 3 _ hr (by decide) (complete_cycle_frame_lt p c 3 hc (by decide))
  exact Or.inr ⟨rfl, htop, h9, rfl, Or.inr ⟨b, hb, rfl⟩⟩

/-- Instance of C3 (Scenario D): cycle 0 has the code 7 at relative position 7
and no code 6, and `actions[10] = 9`: the entry of frame 3 is `(10, 7)`. -/
theorem cross_cycle_carry_witness :
    (ivtcCreate ⟨⟨3, 1⟩, 30000, 1001, 720, 240, 6⟩ false
        ⟨[0, 1, 2, 3, 4, 5, 8, 7, 8, 8, 9], fun _ => none⟩).fieldsForFrames[4 * 0 + 3]?
      = some (10 * (0 + 1), 10 * 0 + 7) :=
  cross_cycle_carry ⟨⟨3, 1⟩, 30000, 1001, 720, 240, 6⟩ false
    ⟨[0, 1, 2, 3, 4, 5, 8, 7, 8, 8, 9], fun _ => none⟩ 0 7
    (by decide) (by decide) (by decide) (by decide) (by decide)

/-! ## Frames left pending -/

theorem noMatch_keeps_empty (p : Project) (c f : Nat) (st : LoopState) (hf : f < 4)
    (hno : NoMatch p c f) (hst : st.lastSpecifiedFrame = EMPTY_PAIR) :
    (matchStep p c f st).lastSpecifiedFrame = EMPTY_PAIR := by
  obtain ⟨ht, hb, hca⟩ := noMatch_tops p c f hf hno
  by_cases hnx : p.no_match_handling (toString (c * 4 + f)) = some "Next"
  · exact (matchStep_next p c f st ht hb hca hnx).1
  · rw [(matchStep_previous p c f st ht hb hca hnx).1, hst]

/-- Once `lastSpecifiedFrame` is empty it stays empty over a run of frames
without role match and carry. -/
theorem empty_over_noMatch_run (p : Project) (n : Nat)
    (hn : (flatLoop p n).lastSpecifiedFrame = EMPTY_PAIR) (m : Nat)
    (hrun : ∀ j, n ≤ j → j < m → NoMatch p (j / 4) (j % 4)) :
    ∀ j, n ≤ j → j ≤ m → (flatLoop p j).lastSpecifiedFrame = EMPTY_PAIR := by
  intro j hj1 hj2
  induction j with
  | zero =>
    have : n = 0 := by omega
    subst this
    exact hn
  | succ j ih =>
    by_cases hjn : n = j + 1
    · subst hjn
      exact hn
    · rw [flatLoop_last]
      exact noMatch_keeps_empty p _ _ _ (Nat.mod_lt _ (by decide))
        (hrun j (by omega) (by omega)) (ih (by omega) (by omega))

theorem matchStep_freeze_other (p : Project) (c f n : Nat) (st : LoopState)
    (hn : n ≠ c * 4 + f) :
    (matchStep p c f st).freezeFrameHandling n = st.freezeFrameHandling n := by
  unfold matchStep
  simp only
  split_ifs <;> simp [mapSet, hn]

theorem flatLoop_freeze_stable (p : Project) (n m : Nat) :
    (flatLoop p (n + 1 + m)).freezeFrameHandling n = (flatLoop p (n + 1)).freezeFrameHandling n := by
  induction m with
  | zero => rfl
  | succ m ih =>
    rw [← ih]
    show (pushStep (matchStep p ((n + 1 + m) / 4) ((n + 1 + m) % 4)
      (flatLoop p (n + 1 + m)))).freezeFrameHandling n = _
    rw [pushStep_freeze]
    apply matchStep_freeze_other
    omega

/-- The freeze directive of frame `n` in the compiled state is the one written
when frame `n` was processed. -/
theorem compileLoop_freeze (p : Project) (n : Nat) (hn : n < outputFrameCount p) :
    (compileLoop p).freezeFrameHandling n
      = (matchStep p (n / 4) (n % 4) (flatLoop p n)).freezeFrameHandling n := by
  rw [compileLoop_eq_flatLoop]
  have := flatLoop_freeze_stable p n (outputFrameCount p - (n + 1))
  rw [show n + 1 + (outputFrameCount p - (n + 1)) = outputFrameCount p by omega] at this
  rw [this]
  show (pushStep _).freezeFrameHandling n = _
  rw [pushStep_freeze]

/-- No entry of the plan is `EMPTY_PAIR`. -/
theorem flatLoop_no_empty (p : Project) (k : Nat) :
    ∀ x ∈ (flatLoop p k).fieldsForFrames, x ≠ EMPTY_PAIR := by
  induction k with
  | zero => simp [flatLoop, LoopState.init]
  | succ k ih =>
    by_cases h : (flatLoop p (k + 1)).lastSpecifiedFrame = EMPTY_PAIR
    · rw [(flatLoop_pending p k h).1]
      exact ih
    · rw [(flatLoop_push p k h).1]
      intro x hx
      rcases List.mem_append.1 hx with hx | hx
      · exact ih x hx
      · rw [(List.mem_replicate.1 hx).2]
        exact h

theorem compileLoop_getElem?_ne_empty (p : Project) (i : Nat) :
    (compileLoop p).fieldsForFrames[i]? ≠ some EMPTY_PAIR := by
  intro h
  rw [compileLoop_eq_flatLoop, List.getElem?_eq_some] at h
  obtain ⟨hlt, he⟩ := h
  exact flatLoop_no_empty p _ _ (List.getElem_mem hlt) he

/-- C4 (failing input). A log of five unused fields announces two output frames
but compiles to an empty plan, so that `fieldsForFrames.at(0)` throws in
`ivtcGetFrame` for every activation reason. -/
theorem plan_shorter_than_frame_count :
    (ivtcCreate sampleInfo false ⟨[8, 8, 8, 8, 8], fun _ => none⟩).vi.numFrames = 2
    ∧ outputFrameCount ⟨[8, 8, 8, 8, 8], fun _ => none⟩ = 2
    ∧ (ivtcCreate sampleInfo false ⟨[8, 8, 8, 8, 8], fun _ => none⟩).fieldsForFrames.length = 0
    ∧ ∀ (api : VSAPI) (r : ActivationReason),
        (ivtcGetFrame (ivtcCreate sampleInfo false ⟨[8, 8, 8, 8, 8], fun _ => none⟩)
          api 0 r).isNone = true := by
  refine ⟨by decide, by decide, by decide, ?_⟩
  intro api r
  have h : (ivtcCreate sampleInfo false ⟨[8, 8, 8, 8, 8], fun _ => none⟩).fieldsForFrames[0]?
      = none := by decide
  unfold ivtcGetFrame
  rw [h]
  rfl

/-- The entry of output frame `n` when that frame resolves to `P`. -/
theorem plan_at_frame (p : Project) (n : Nat) (P : Nat × Nat) (hr : InIntRange p)
    (hn : n < outputFrameCount p) (h : Resolves p (n / 4) (n % 4) P) :
    (compileLoop p).fieldsForFrames[n]? = some P :=
  plan_at_of_last p n hn P (resolves_last p _ _ P _ (Nat.mod_lt _ (by decide)) h)
    (resolves_ne_empty p _ _ P hr h)

/-- C5 (counterexample). In the log `[8,8,2,3,4,5,6,7,8,8]` without overrides
frame 0 has no role code, no carry and no override, yet its plan entry is
`(2, 3)`, the pair of frame 1, and not `EMPTY_PAIR`. -/
theorem previous_freeze_at_start_counterexample :
    NoMatch ⟨[8, 8, 2, 3, 4, 5, 6, 7, 8, 8], fun _ => none⟩ 0 0
    ∧ (fun _ => none : String → Option String) (toString (0 : Nat)) = none
    ∧ (ivtcCreate sampleInfo false
        ⟨[8, 8, 2, 3, 4, 5, 6, 7, 8, 8], fun _ => none⟩).fieldsForFrames[0]? = some (2, 3)
    ∧ ¬ ((ivtcCreate sampleInfo false
          ⟨[8, 8, 2, 3, 4, 5, 6, 7, 8, 8], fun _ => none⟩).fieldsForFrames[0]?
            = some EMPTY_PAIR
        ∧ (ivtcCreate sampleInfo false
          ⟨[8, 8, 2, 3, 4, 5, 6, 7, 8, 8], fun _ => none⟩).freezeFrameHandling 0
            = some "Previous") := by
  refine ⟨by decide, rfl, by decide, ?_⟩
  rintro ⟨h, _⟩
  exact absurd h (by decide)

/-- C5 (amended). When frame 0 has neither role code 0 nor 1 in cycle 0, no
carry, and no override entry, the freeze directive recorded for frame 0 is
"Previous" and frame 0 stays pending: its plan entry is never `EMPTY_PAIR`, and
it is the pair `P` of the first frame `m` that resolves by role match or carry
when the frames before `m` have no role match and no carry. -/
theorem previous_freeze_at_start (vi : VSVideoInfo) (ld : Bool) (p : Project)
    (hr : InIntRange p) (h0 : 0 < outputFrameCount p) (hno : NoMatch p 0 0)
    (hov : p.no_match_handling (toString (0 : Nat)) = none) :
    (ivtcCreate vi ld p).freezeFrameHandling 0 = some "Previous"
    ∧ (ivtcCreate vi ld p).fieldsForFrames[0]? ≠ some EMPTY_PAIR
    ∧ ∀ (m : Nat) (P : Nat × Nat), m < outputFrameCount p →
        (∀ j, j < m → NoMatch p (j / 4) (j % 4)) → Resolves p (m / 4) (m % 4) P →
        (ivtcCreate vi ld p).fieldsForFrames[0]? = some P := by
  rw [ivtcCreate_fields, ivtcCreate_freeze]
  refine ⟨?_, compileLoop_getElem?_ne_empty p 0, ?_⟩
  · rw [compileLoop_freeze p 0 h0]
    obtain ⟨ht, hb, hca⟩ := noMatch_tops p 0 0 (by decide) hno
    have hnx : p.no_match_handling (toString (0 * 4 + 0)) ≠ some "Next" := by
      rw [show 0 * 4 + 0 = (0 : Nat) by rfl, hov]
      exact fun h => by cases h
    rw [show 0 / 4 = 0 by rfl, show 0 % 4 = 0 by rfl,
      (matchStep_previous p 0 0 _ ht hb hca hnx).2]
    simp [mapSet]
  · intro m P hm hrun hres
    apply backfill_of_run p 0 m P hr (Nat.zero_le _) hm _ hres 0 (le_refl _) (Nat.zero_le _)
    intro j _ hj
    exact empty_over_noMatch_run p 0 rfl m (fun k _ hk => hrun k hk) (j + 1)
      (Nat.zero_le _) (by omega)

/-- Instance of C5 (amended): in the log `[8,8,2,3,4,5,6,7,8,8]` frame 0 is a
"Previous" freeze and takes the pair `(2, 3)` of frame 1. -/
theorem previous_freeze_at_start_witness :
    (ivtcCreate sampleInfo false
        ⟨[8, 8, 2, 3, 4, 5, 6, 7, 8, 8], fun _ => none⟩).freezeFrameHandling 0
      = some "Previous"
    ∧ (ivtcCreate sampleInfo false
        ⟨[8, 8, 2, 3, 4, 5, 6, 7, 8, 8], fun _ => none⟩).fieldsForFrames[0]? = some (2, 3) :=
  have h := previous_freeze_at_start sampleInfo false
    ⟨[8, 8, 2, 3, 4, 5, 6, 7, 8, 8], fun _ => none⟩ (by decide) (by decide) (by decide) rfl
  ⟨h.1, h.2.2 1 (2, 3) (by decide)
    (by
      intro j hj
      obtain rfl : j = 0 := by omega
      decide)
    (Or.inl ⟨by decide, by decide, Or.inr ⟨2, by decide, rfl⟩, Or.inr ⟨3, by decide, rfl⟩⟩)⟩

/-- C6 (failing input). Ten actions whose frames 2 and 3 have no role code and
the override "Next": four output frames are announced, both frames are
recorded as "Next" freezes, but the plan has only the entries of frames 0 and
1, so that `fieldsForFrames.at(2)` throws before the `EMPTY_PAIR` test of
`ivtcGetFrame` is reached. -/
theorem pending_at_end_has_no_entry :
    outputFrameCount ⟨[0, 1, 2, 3, 8, 8, 8, 8, 8, 8],
        fun k => if k = "2" ∨ k = "3" then some "Next" else none⟩ = 4
    ∧ (ivtcCreate sampleInfo false ⟨[0, 1, 2, 3, 8, 8, 8, 8, 8, 8],
        fun k => if k = "2" ∨ k = "3" then some "Next" else none⟩).freezeFrameHandling 2
        = some "Next"
    ∧ (ivtcCreate sampleInfo false ⟨[0, 1, 2, 3, 8, 8, 8, 8, 8, 8],
        fun k => if k = "2" ∨ k = "3" then some "Next" else none⟩).fieldsForFrames
        = [(0, 1), (2, 3)]
    ∧ (ivtcCreate sampleInfo false ⟨[0, 1, 2, 3, 8, 8, 8, 8, 8, 8],
        fun k => if k = "2" ∨ k = "3" then some "Next" else none⟩).fieldsForFrames[2]? = none
    ∧ ∀ (api : VSAPI) (r : ActivationReason),
        (ivtcGetFrame (ivtcCreate sampleInfo false ⟨[0, 1, 2, 3, 8, 8, 8, 8, 8, 8],
          fun k => if k = "2" ∨ k = "3" then some "Next" else none⟩) api 2 r).isNone = true := by
  refine ⟨by decide, by decide, by decide, by decide, ?_⟩
  intro api r
  have h : (ivtcCreate sampleInfo false ⟨[0, 1, 2, 3, 8, 8, 8, 8, 8, 8],
      fun k => if k = "2" ∨ k = "3" then some "Next" else none⟩).fieldsForFrames[2]?
      = none := by decide
  unfold ivtcGetFrame
  rw [h]
  rfl

/-- C7 (counterexample). In the log `[0,1,8,8,8,8,6,7,8,8]` with the override
`"1" ↦ "Next"`, frame 0 resolves to `(0, 1)`, frame 1 is deferred, frame 2 is a
default "Previous" freeze, and the entry of frame 2 is `(6, 7)`, not `(0, 1)`. -/
theorem previous_after_next_counterexample :
    Resolves ⟨[0, 1, 8, 8, 8, 8, 6, 7, 8, 8],
        fun k => if k = "1" then some "Next" else none⟩ 0 0 (0, 1)
    ∧ NoMatch ⟨[0, 1, 8, 8, 8, 8, 6, 7, 8, 8],
        fun k => if k = "1" then some "Next" else none⟩ 0 1
    ∧ (fun k => if k = "1" then some "Next" else none : String → Option String)
        (toString (1 : Nat)) = some "Next"
    ∧ NoMatch ⟨[0, 1, 8, 8, 8, 8, 6, 7, 8, 8],
        fun k => if k = "1" then some "Next" else none⟩ 0 2
    ∧ (fun k => if k = "1" then some "Next" else none : String → Option String)
        (toString (2 : Nat)) = none
    ∧ (ivtcCreate sampleInfo false ⟨[0, 1, 8, 8, 8, 8, 6, 7, 8, 8],
        fun k => if k = "1" then some "Next" else none⟩).fieldsForFrames[2]? = some (6, 7)
    ∧ (ivtcCreate sampleInfo false ⟨[0, 1, 8, 8, 8, 8, 6, 7, 8, 8],
        fun k => if k = "1" then some "Next" else none⟩).fieldsForFrames[2]? ≠ some (0, 1) := by
  refine ⟨?_, by decide, by decide, by decide, by decide, by decide, by decide⟩
  exact Or.inl ⟨by decide, by decide, Or.inr ⟨0, by decide, rfl⟩, Or.inr ⟨1, by decide, rfl⟩⟩

/-- C7 (amended). Deferring a frame with "Next" resets `lastSpecifiedFrame` to
`EMPTY_PAIR`: when frame `q` resolves to `P`, frame `q + 1` is deferred with
"Next", frame `q + 2` is a default "Previous" freeze, the frames between `q + 2`
and `m` have no role match and no carry, and frame `m` resolves to `Q`, then the
entry of `q` is `P`, the pair is empty after frame `q + 1`, and the frames
`q + 1` and `q + 2` both take the pair `Q`; frame `q + 2` is recorded as a
"Previous" freeze. -/
theorem next_deferral_resets_last (vi : VSVideoInfo) (ld : Bool) (p : Project)
    (q m : Nat) (P Q : Nat × Nat) (hr : InIntRange p) (hqm : q + 2 < m)
    (hm : m < outputFrameCount p)
    (hP : Resolves p (q / 4) (q % 4) P)
    (h1 : NoMatch p ((q + 1) / 4) ((q + 1) % 4))
    (h1n : p.no_match_handling (toString (q + 1)) = some "Next")
    (h2 : NoMatch p ((q + 2) / 4) ((q + 2) % 4))
    (h2n : p.no_match_handling (toString (q + 2)) ≠ some "Next")
    (hmid : ∀ j, q + 2 < j → j < m → NoMatch p (j / 4) (j % 4))
    (hQ : Resolves p (m / 4) (m % 4) Q) :
    (ivtcCreate vi ld p).fieldsForFrames[q]? = some P
    ∧ (flatLoop p (q + 2)).lastSpecifiedFrame = EMPTY_PAIR
    ∧ (ivtcCreate vi ld p).fieldsForFrames[q + 1]? = some Q
    ∧ (ivtcCreate vi ld p).fieldsForFrames[q + 2]? = some Q
    ∧ (ivtcCreate vi ld p).freezeFrameHandling (q + 2) = some "Previous" := by
  rw [ivtcCreate_fields, ivtcCreate_freeze]
  have hlast : (flatLoop p (q + 2)).lastSpecifiedFrame = EMPTY_PAIR := by
    obtain ⟨ht, hb, hca⟩ := noMatch_tops p _ _ (Nat.mod_lt _ (by decide)) h1
    rw [flatLoop_last]
    refine (matchStep_next p _ _ _ ht hb hca ?_).1
    rw [show (q + 1) / 4 * 4 + (q + 1) % 4 = q + 1 by omega]
    exact h1n
  have hrun : ∀ j, q + 1 ≤ j → j < m → (flatLoop p (j + 1)).lastSpecifiedFrame = EMPTY_PAIR := by
    intro j hj1 hj2
    apply empty_over_noMatch_run p (q + 2) hlast m _ (j + 1) (by omega) (by omega)
    intro k hk1 hk2
    by_cases hk : k = q + 2
    · subst hk; exact h2
    · exact hmid k (by omega) hk2
  have hback := backfill_of_run p (q + 1) m Q hr (by omega) hm hrun hQ
  refine ⟨plan_at_frame p q P hr (by omega) hP, hlast, hback (q + 1) (le_refl _) (by omega),
    hback (q + 2) (by omega) (by omega), ?_⟩
  rw [compileLoop_freeze p (q + 2) (by omega)]
  obtain ⟨ht, hb, hca⟩ := noMatch_tops p _ _ (Nat.mod_lt _ (by decide)) h2
  have hkey : (q + 2) / 4 * 4 + (q + 2) % 4 = q + 2 := by omega
  rw [(matchStep_previous p _ _ _ ht hb hca (by rw [hkey]; exact h2n)).2]
  simp [mapSet, hkey]

/-- Instance of C7 (amended): in the log `[0,1,8,8,8,8,6,7,8,8]` with the
override `"1" ↦ "Next"`, the frames 1 and 2 both take the pair `(6, 7)` of frame
3 while frame 0 keeps `(0, 1)`. -/
theorem next_deferral_resets_last_witness :
    (ivtcCreate sampleInfo false ⟨[0, 1, 8, 8, 8, 8, 6, 7, 8, 8],
        fun k => if k = "1" then some "Next" else none⟩).fieldsForFrames[0]? = some (0, 1)
    ∧ (ivtcCreate sampleInfo false ⟨[0, 1, 8, 8, 8, 8, 6, 7, 8, 8],
        fun k => if k = "1" then some "Next" else none⟩).fieldsForFrames[0 + 2]? = some (6, 7) :=
  have h := next_deferral_resets_last sampleInfo false
    ⟨[0, 1, 8, 8, 8, 8, 6, 7, 8, 8], fun k => if k = "1" then some "Next" else none⟩
    0 3 (0, 1) (6, 7) (by decide) (by decide) (by decide)
    (Or.inl ⟨by decide, by decide, Or.inr ⟨0, by decide, rfl⟩, Or.inr ⟨1, by decide, rfl⟩⟩)
    (by decide) (by decide) (by decide) (by decide)
    (by intro j h1 h2; omega)
    (Or.inl ⟨by decide, by decide, Or.inr ⟨6, by decide, rfl⟩, Or.inr ⟨7, by decide, rfl⟩⟩)
  ⟨h.1, h.2.2.2.1⟩

/-! ## The weave loop -/

theorem memcpy_inside (dst : Nat → Nat) (dstp : Nat) (src : Nat → Nat) (srcp n a : Nat)
    (h1 : dstp ≤ a) (h2 : a < dstp + n) :
    memcpy dst dstp src srcp n a = src (srcp + (a - dstp)) := by
  unfold memcpy
  rw [if_pos ⟨h1, h2⟩]

theorem memcpy_outside (dst : Nat → Nat) (dstp : Nat) (src : Nat → Nat) (srcp n a : Nat)
    (h : a < dstp ∨ dstp + n ≤ a) :
    memcpy dst dstp src srcp n a = dst a := by
  unfold memcpy
  rw [if_neg (by omega)]

/-- Invariant of the row loop started at the plane pointers: after `h`
iterations the pointers have advanced by `h` source rows and `2 * h`
destination rows, the first `2 * h` destination rows hold the weave, and the
bytes from row `2 * h` on are untouched. -/
theorem weaveLoop_spec (topMem bottomMem mem0 : Nat → Nat) (ss ds rowSize : Nat)
    (hrow : rowSize ≤ ds) (h : Nat) :
    (weaveLoop topMem bottomMem ss ds rowSize ⟨0, 0, 0, mem0⟩ h).dstp = 2 * (h * ds)
    ∧ (weaveLoop topMem bottomMem ss ds rowSize ⟨0, 0, 0, mem0⟩ h).srcpTop = h * ss
    ∧ (weaveLoop topMem bottomMem ss ds rowSize ⟨0, 0, 0, mem0⟩ h).srcpBottom = h * ss
    ∧ (∀ k j, k < h → j < rowSize →
        (weaveLoop topMem bottomMem ss ds rowSize ⟨0, 0, 0, mem0⟩ h).mem (2 * (k * ds) + j)
            = topMem (k * ss + j)
        ∧ (weaveLoop topMem bottomMem ss ds rowSize ⟨0, 0, 0, mem0⟩ h).mem
            (2 * (k * ds) + ds + j) = bottomMem (k * ss + j))
    ∧ (∀ a, 2 * (h * ds) ≤ a →
        (weaveLoop topMem bottomMem ss ds rowSize ⟨0, 0, 0, mem0⟩ h).mem a = mem0 a) := by
  induction h with
  | zero =>
    refine ⟨by simp [weaveLoop], by simp [weaveLoop], by simp [weaveLoop], ?_, ?_⟩
    · intro k j hk; omega
    · intro a _; rfl
  | succ h ih =>
    obtain ⟨hd, ht, hb, hrows, hrest⟩ := ih
    have hsd : (h + 1) * ds = h * ds + ds := Nat.succ_mul h ds
    have hss : (h + 1) * ss = h * ss + ss := Nat.succ_mul h ss
    simp only [weaveLoop, weaveRow, hd, ht, hb]
    refine ⟨by omega, by omega, by omega, ?_, ?_⟩
    · intro k j hk hj
      by_cases hkh : k < h
      · have hle : (k + 1) * ds ≤ h * ds := Nat.mul_le_mul_right ds hkh
        rw [Nat.succ_mul] at hle
        obtain ⟨r1, r2⟩ := hrows k j hkh hj
        constructor
        · rw [memcpy_outside _ _ _ _ _ _ (Or.inl (by omega)),
            memcpy_outside _ _ _ _ _ _ (Or.inl (by omega)), r1]
        · rw [memcpy_outside _ _ _ _ _ _ (Or.inl (by omega)),
            memcpy_outside _ _ _ _ _ _ (Or.inl (by omega)), r2]
      · have hk' : k = h := by omega
        subst hk'
        constructor
        · rw [memcpy_outside _ _ _ _ _ _ (Or.inl (by omega)),
            memcpy_inside _ _ _ _ _ _ (by omega) (by omega)]
          congr 1
          omega
        · rw [memcpy_inside _ _ _ _ _ _ (by omega) (by omega)]
          congr 1
          omega
    · intro a ha
      rw [memcpy_outside _ _ _ _ _ _ (Or.inr (by omega)),
        memcpy_outside _ _ _ _ _ _ (Or.inr (by omega))]
      exact hrest a (by omega)

/-- Rows of the plane written by `weavePlane`. -/
theorem weavePlane_rows (topP bottomP dstP : Plane) (bps : Nat)
    (hfit : dstP.width * bps ≤ dstP.stride) (k j : Nat) (hk : k < topP.height)
    (hj : j < dstP.width * bps) :
    (weavePlane topP bottomP dstP bps).mem (2 * k * dstP.stride + j)
        = topP.mem (k * bottomP.stride + j)
    ∧ (weavePlane topP bottomP dstP bps).mem ((2 * k + 1) * dstP.stride + j)
        = bottomP.mem (k * bottomP.stride + j) := by
  obtain ⟨_, _, _, hrows, _⟩ :=
    weaveLoop_spec topP.mem bottomP.mem dstP.mem bottomP.stride dstP.stride
      (dstP.width * bps) hfit topP.height
  obtain ⟨r1, r2⟩ := hrows k j hk hj
  have e1 : 2 * k * dstP.stride + j = 2 * (k * dstP.stride) + j := by
    rw [Nat.mul_assoc]
  have e2 : (2 * k + 1) * dstP.stride + j = 2 * (k * dstP.stride) + dstP.stride + j := by
    rw [Nat.add_mul, Nat.mul_assoc, Nat.one_mul]
  rw [e1, e2]
  exact ⟨r1, r2⟩

/-- Bytes from row `2 * h` on are left as allocated. -/
theorem weavePlane_rest (topP bottomP dstP : Plane) (bps : Nat)
    (hfit : dstP.width * bps ≤ dstP.stride) (a : Nat)
    (ha : 2 * topP.height * dstP.stride ≤ a) :
    (weavePlane topP bottomP dstP bps).mem a = dstP.mem a := by
  obtain ⟨_, _, _, _, hrest⟩ :=
    weaveLoop_spec topP.mem bottomP.mem dstP.mem bottomP.stride dstP.stride
      (dstP.width * bps) hfit topP.height
  exact hrest a (by rw [← Nat.mul_assoc]; exact ha)

/-! ## Branches of `ivtcGetFrame` in the all-frames-ready phase -/

/-- Without a linedoubled clip, or with both sides concrete, the weave branch runs. -/
theorem ivtcGetFrame_weave (d : IvtcData) (api : VSAPI) (n t b : Nat)
    (hentry : d.fieldsForFrames[n]? = some (t, b)) (hne : (t, b) ≠ EMPTY_PAIR)
    (hweave : d.linedoubledNode = none ∨ (t ≠ UINT_FAST32_MAX ∧ b ≠ UINT_FAST32_MAX)) :
    ivtcGetFrame d api n ActivationReason.arAllFramesReady = some (weaveBranch d api n t b) := by
  unfold ivtcGetFrame
  rw [hentry]
  simp only [if_neg hne]
  cases hl : d.linedoubledNode with
  | none => rfl
  | some l =>
    rcases hweave with h | h
    · rw [hl] at h; cases h
    · simp only [h.1, h.2, ne_eq, not_false_eq_true, and_self, if_true]

/-- With a linedoubled clip and a side missing, the copy branch runs. -/
theorem ivtcGetFrame_copy (d : IvtcData) (api : VSAPI) (n t b : Nat) (l : NodeRef)
    (hentry : d.fieldsForFrames[n]? = some (t, b)) (hne : (t, b) ≠ EMPTY_PAIR)
    (hl : d.linedoubledNode = some l)
    (hone : t = UINT_FAST32_MAX ∨ b = UINT_FAST32_MAX) :
    ivtcGetFrame d api n ActivationReason.arAllFramesReady
      = some (copyBranch d api n t b l) := by
  unfold ivtcGetFrame
  rw [hentry]
  simp only [if_neg hne, hl]
  rw [if_neg (by
    rintro ⟨h1, h2⟩
    rcases hone with h | h
    · exact h1 h
    · exact h2 h)]

/-- C8. Weave correctness of `ivtcGetFrame` in the all-frames-ready phase: when
the weave branch runs for the entry `(t, b)` with the source frames `topFrame`
and `bottomFrame` fetched from the clip, then for every plane, of source height
`h`, whose frames have the layout VapourSynth gives to the frames of one clip
(both source planes share their stride; the plane allocated for the doubled
height has `2 * h` rows and a stride that holds a row), the output plane has
`2 * h` rows and, for all `k < h`, the first `rowSize` bytes of output row `2k`
are those of row `k` of `topFrame` and those of output row `2k + 1` are those of
row `k` of `bottomFrame`. -/
theorem weave_correct (d : IvtcData) (api : VSAPI) (n t b plane : Nat)
    (topFrame bottomFrame : VSFrame) (dstP : Plane)
    (hentry : d.fieldsForFrames[n]? = some (t, b)) (hne : (t, b) ≠ EMPTY_PAIR)
    (hweave : d.linedoubledNode = none ∨ (t ≠ UINT_FAST32_MAX ∧ b ≠ UINT_FAST32_MAX))
    (htop : topFrame
      = api.getFrameFilter (if t = UINT_FAST32_MAX then b else t) d.videoNode)
    (hbottom : bottomFrame
      = api.getFrameFilter
          (if b = UINT_FAST32_MAX then (if t = UINT_FAST32_MAX then b else t) else b)
          d.videoNode)
    (hdst : dstP = api.allocPlane d.vi.format d.vi.width d.vi.height plane)
    (hplane : plane < d.vi.format.numPlanes)
    (hstride : (topFrame.planes plane).stride = (bottomFrame.planes plane).stride)
    (hheight : dstP.height = 2 * (topFrame.planes plane).height)
    (hfit : dstP.width * d.vi.format.bytesPerSample ≤ dstP.stride) :
    ∃ r out, ivtcGetFrame d api n ActivationReason.arAllFramesReady = some r
      ∧ r.frame = some out
      ∧ (out.planes plane).height = 2 * (topFrame.planes plane).height
      ∧ (out.planes plane).stride = dstP.stride
      ∧ ∀ k j, k < (topFrame.planes plane).height →
          j < dstP.width * d.vi.format.bytesPerSample →
          (out.planes plane).mem (2 * k * dstP.stride + j)
              = (topFrame.planes plane).mem (k * (topFrame.planes plane).stride + j)
          ∧ (out.planes plane).mem ((2 * k + 1) * dstP.stride + j)
              = (bottomFrame.planes plane).mem
                  (k * (bottomFrame.planes plane).stride + j) := by
  refine ⟨weaveBranch d api n t b, _, ivtcGetFrame_weave d api n t b hentry hne hweave, rfl, ?_⟩
  have hpl : ∀ out : VSFrame, (weaveBranch d api n t b).frame = some out →
      out.planes plane
        = weavePlane (topFrame.planes plane) (bottomFrame.planes plane) dstP
            d.vi.format.bytesPerSample := by
    intro out ho
    simp only [weaveBranch, newVideoFrame, Option.some.injEq] at ho
    rw [← ho]
    simp only [if_pos hplane]
    rw [htop, hbottom, hdst]
  rw [hpl _ rfl]
  refine ⟨hheight, rfl, ?_⟩
  intro k j hk hj
  have := weavePlane_rows (topFrame.planes plane) (bottomFrame.planes plane) dstP
    d.vi.format.bytesPerSample hfit k j hk hj
  rw [hstride]
  exact this

/-- Instance of C8: frame 0 of `tinyData` weaves the fields 0 and 1 of the clip
of `tinyAPI` into a plane of 4 rows. -/
theorem weave_correct_witness :
    ∃ r out, ivtcGetFrame tinyData tinyAPI 0 ActivationReason.arAllFramesReady = some r
      ∧ r.frame = some out
      ∧ (out.planes 0).height = 2 * ((tinyAPI.getFrameFilter 0 NodeRef.clip).planes 0).height
      ∧ (out.planes 0).stride = (tinyAPI.allocPlane tinyData.vi.format 4 4 0).stride
      ∧ ∀ k j, k < ((tinyAPI.getFrameFilter 0 NodeRef.clip).planes 0).height →
          j < (tinyAPI.allocPlane tinyData.vi.format 4 4 0).width
                * tinyData.vi.format.bytesPerSample →
          (out.planes 0).mem (2 * k * (tinyAPI.allocPlane tinyData.vi.format 4 4 0).stride + j)
              = ((tinyAPI.getFrameFilter 0 NodeRef.clip).planes 0).mem
                  (k * ((tinyAPI.getFrameFilter 0 NodeRef.clip).planes 0).stride + j)
          ∧ (out.planes 0).mem
                ((2 * k + 1) * (tinyAPI.allocPlane tinyData.vi.format 4 4 0).stride + j)
              = ((tinyAPI.getFrameFilter 1 NodeRef.clip).planes 0).mem
                  (k * ((tinyAPI.getFrameFilter 1 NodeRef.clip).planes 0).stride + j) :=
  weave_correct tinyData tinyAPI 0 0 1 0
    (tinyAPI.getFrameFilter 0 NodeRef.clip) (tinyAPI.getFrameFilter 1 NodeRef.clip)
    (tinyAPI.allocPlane tinyData.vi.format 4 4 0)
    (by decide) (by decide) (Or.inl rfl) rfl rfl rfl (by decide) (by decide) (by decide)
    (by decide)

theorem finishProps_fields (d : IvtcData) (n : Nat) (props : String → Option PropValue) :
    finishProps d n props "IVTCDN_Fields" = props "IVTCDN_Fields" := by
  have h1 : ("IVTCDN_Fields" : String) ≠ "_FieldBased" := by decide
  have h2 : ("IVTCDN_Fields" : String) ≠ "_Field" := by decide
  have h3 : ("IVTCDN_Fields" : String) ≠ "IVTCDN_FreezeFrame" := by decide
  unfold finishProps mapSetInt mapDeleteKey
  simp only [if_neg h1, if_neg h2]
  cases d.freezeFrameHandling n with
  | none => rfl
  | some s => simp only [mapSetData, if_neg h3]

/-- C9. Fallback correctness of `ivtcGetFrame`: for a plan entry with exactly
one concrete side `c` and a linedoubled clip configured, the all-frames-ready
phase returns a frame whose planes (and format) are those of frame `c` of the
linedoubled clip, the only frame fetched is that one, and the tag
`IVTCDN_Fields` is 1. -/
theorem fallback_correct (d : IvtcData) (api : VSAPI) (n t b c : Nat) (l : NodeRef)
    (hentry : d.fieldsForFrames[n]? = some (t, b))
    (hone : (t = c ∧ b = UINT_FAST32_MAX) ∨ (t = UINT_FAST32_MAX ∧ b = c))
    (hc : c ≠ UINT_FAST32_MAX)
    (hl : d.linedoubledNode = some l) :
    ∃ r out, ivtcGetFrame d api n ActivationReason.arAllFramesReady = some r
      ∧ r.frame = some out
      ∧ out.planes = (api.getFrameFilter c l).planes
      ∧ out.format = (api.getFrameFilter c l).format
      ∧ r.fetched = [(c, l)]
      ∧ out.props "IVTCDN_Fields" = some (PropValue.int 1) := by
  have hne : (t, b) ≠ EMPTY_PAIR := by
    rcases hone with ⟨h1, _⟩ | ⟨_, h2⟩
    · exact pair_ne_empty_left (h1 ▸ hc)
    · exact pair_ne_empty_right (h2 ▸ hc)
  have hside : t = UINT_FAST32_MAX ∨ b = UINT_FAST32_MAX := by
    rcases hone with ⟨_, h⟩ | ⟨h, _⟩
    · exact Or.inr h
    · exact Or.inl h
  have hnum : (if t = UINT_FAST32_MAX then b else t) = c := by
    rcases hone with ⟨h1, _⟩ | ⟨h1, h2⟩
    · rw [if_neg (h1 ▸ hc), h1]
    · rw [if_pos h1, h2]
  refine ⟨copyBranch d api n t b l, _, ivtcGetFrame_copy d api n t b l hentry hne hl hside,
    rfl, ?_, ?_, ?_, ?_⟩
  · simp only [copyFrame, hnum]
  · simp only [copyFrame, hnum]
  · simp only [copyBranch, hnum]
  · simp only [finishProps_fields, mapSetInt, if_true]

/-- Instance of C9: frame 3 of `tinyDataLd` has the entry `(MAX, 7)`; with the
linedoubled clip it is frame 7 of that clip. -/
theorem fallback_correct_witness :
    ∃ r out, ivtcGetFrame tinyDataLd tinyAPI 3 ActivationReason.arAllFramesReady = some r
      ∧ r.frame = some out
      ∧ out.planes = (tinyAPI.getFrameFilter 7 NodeRef.linedoubled).planes
      ∧ out.format = (tinyAPI.getFrameFilter 7 NodeRef.linedoubled).format
      ∧ r.fetched = [(7, NodeRef.linedoubled)]
      ∧ out.props "IVTCDN_Fields" = some (PropValue.int 1) :=
  fallback_correct tinyDataLd tinyAPI 3 UINT_FAST32_MAX 7 7 NodeRef.linedoubled
    (by decide) (Or.inr ⟨rfl, rfl⟩) (by decide) rfl

/-! ## The fields-used tag -/

theorem cycleActions_length_le (p : Project) (c : Nat) : (cycleActions p c).length ≤ 10 := by
  have hr := fieldsWithIncompleteCycles_lt p
  unfold cycleActions actionCountInCycle
  rw [List.length_take]
  split <;> omega

theorem sideAt_of_found (w : List Int) (v : Int) (base : Nat) (h : findIndex w v ≠ -1) :
    sideAt base (findIndex w v) = base + stdFind w v
      ∧ stdFind w v < w.length ∧ w[stdFind w v]? = some v := by
  have hm : v ∈ w := by
    by_contra hc
    exact h ((findIndex_eq_neg_one w v).2 hc)
  have hfp := stdFind_isFirstPos w v hm
  refine ⟨?_, hfp.lt, hfp.1⟩
  unfold sideAt
  rw [findIndex_of_mem w v hm, if_neg (by omega)]
  omega

theorem matchStep_good (p : Project) (c f : Nat) (st : LoopState) (hf : f < 4)
    (hst : GoodPair st.lastSpecifiedFrame) :
    GoodPair (matchStep p c f st).lastSpecifiedFrame := by
  by_cases ht : topOf p c f = -1
  · by_cases hb : bottomOf p c f = -1
    · by_cases hca : carryAhead p c f = true
      · rw [matchStep_carry_none p c f st ht hb hca]
        intro _ h2
        exact absurd rfl h2
      · by_cases hnx : p.no_match_handling (toString (c * 4 + f)) = some "Next"
        · rw [(matchStep_next p c f st ht hb hca hnx).1]
          intro h1 _
          exact absurd rfl h1
        · rw [(matchStep_previous p c f st ht hb hca hnx).1]
          exact hst
    · by_cases hca : carryAhead p c f = true
      · rw [matchStep_carry_bottom p c f st ht hb hca]
        obtain ⟨e, hlt, _⟩ := sideAt_of_found _ _ (c * 10) hb
        have hlen := cycleActions_length_le p c
        intro _ _
        show c * 10 + 10 ≠ sideAt (c * 10) (bottomOf p c f)
        unfold bottomOf
        rw [e]
        omega
      · rw [matchStep_role p c f st (Or.inr hb) (fun h => hca h.2)]
        intro h1 _
        simp only [ht, sideAt, if_true] at h1
        exact absurd rfl h1
  · by_cases hb : bottomOf p c f = -1
    · rw [matchStep_role p c f st (Or.inl ht) (fun h => ht h.1)]
      intro _ h2
      simp only [hb, sideAt, if_true] at h2
      exact absurd rfl h2
    · rw [matchStep_role p c f st (Or.inl ht) (fun h => ht h.1)]
      obtain ⟨e1, _, g1⟩ := sideAt_of_found _ _ (c * 10) ht
      obtain ⟨e2, _, g2⟩ := sideAt_of_found _ _ (c * 10) hb
      intro _ _
      show sideAt (c * 10) (topOf p c f) ≠ sideAt (c * 10) (bottomOf p c f)
      unfold topOf bottomOf
      rw [e1, e2]
      intro heq
      have hidx : stdFind (cycleActions p c) (TOP_FRAMES.getD f 0)
          = stdFind (cycleActions p c) (BOTTOM_FRAMES.getD f 0) := by omega
      rw [hidx, g2, top_code f hf, bottom_code f hf] at g1
      have := Option.some.inj g1
      omega

/-- Every pair kept by the loop, in the plan or as last specified pair, has
different field positions when both sides are concrete. -/
theorem flatLoop_good (p : Project) (k : Nat) :
    GoodPair (flatLoop p k).lastSpecifiedFrame
      ∧ ∀ x ∈ (flatLoop p k).fieldsForFrames, GoodPair x := by
  induction k with
  | zero =>
    refine ⟨?_, by simp [flatLoop, LoopState.init]⟩
    intro h _
    exact absurd rfl h
  | succ k ih =>
    have hl : GoodPair (flatLoop p (k + 1)).lastSpecifiedFrame := by
      rw [flatLoop_last]
      exact matchStep_good p _ _ _ (Nat.mod_lt _ (by decide)) ih.1
    refine ⟨hl, ?_⟩
    by_cases h : (flatLoop p (k + 1)).lastSpecifiedFrame = EMPTY_PAIR
    · rw [(flatLoop_pending p k h).1]
      exact ih.2
    · rw [(flatLoop_push p k h).1]
      intro x hx
      rcases List.mem_append.1 hx with hx | hx
      · exact ih.2 x hx
      · rw [(List.mem_replicate.1 hx).2]
        exact hl

/-- An entry of the compiled plan is not `EMPTY_PAIR` and has different field
positions when both sides are concrete. -/
theorem compiled_pair (p : Project) (n t b : Nat)
    (h : (compileLoop p).fieldsForFrames[n]? = some (t, b)) :
    (t, b) ≠ EMPTY_PAIR ∧ (t ≠ UINT_FAST32_MAX → b ≠ UINT_FAST32_MAX → t ≠ b) := by
  constructor
  · intro e
    rw [e] at h
    exact compileLoop_getElem?_ne_empty p n h
  · rw [compileLoop_eq_flatLoop, List.getElem?_eq_some] at h
    obtain ⟨hlt, he⟩ := h
    have := (flatLoop_good p _).2 _ (List.getElem_mem hlt)
    rw [he] at this
    exact this

/-- C10. Fields-used tag: for every pair `(t, b)` of a plan compiled by
`ivtcCreate`, with or without a linedoubled clip, the all-frames-ready phase of
`ivtcGetFrame` returns a frame whose tag `IVTCDN_Fields` is 1 exactly when one
side of the pair is `UINT_FAST32_MAX` and 2 exactly when both sides are
concrete; two concrete sides of a compiled pair are never equal. -/
theorem fields_used_tag (vi : VSVideoInfo) (ld : Bool) (p : Project) (api : VSAPI)
    (n t b : Nat) (hentry : (ivtcCreate vi ld p).fieldsForFrames[n]? = some (t, b)) :
    ∃ r out, ivtcGetFrame (ivtcCreate vi ld p) api n ActivationReason.arAllFramesReady = some r
      ∧ r.frame = some out
      ∧ (out.props "IVTCDN_Fields" = some (PropValue.int 1)
          ↔ (t = UINT_FAST32_MAX ∧ b ≠ UINT_FAST32_MAX)
            ∨ (t ≠ UINT_FAST32_MAX ∧ b = UINT_FAST32_MAX))
      ∧ (out.props "IVTCDN_Fields" = some (PropValue.int 2)
          ↔ (t ≠ UINT_FAST32_MAX ∧ b ≠ UINT_FAST32_MAX))
      ∧ (t ≠ UINT_FAST32_MAX → b ≠ UINT_FAST32_MAX → t ≠ b) := by
  obtain ⟨hne, hdiff⟩ := compiled_pair p n t b hentry
  have hnot : ¬ (t = UINT_FAST32_MAX ∧ b = UINT_FAST32_MAX) := by
    rintro ⟨h1, h2⟩
    exact hne (by rw [h1, h2]; rfl)
  by_cases hboth : t ≠ UINT_FAST32_MAX ∧ b ≠ UINT_FAST32_MAX
  · obtain ⟨h1, h2⟩ := hboth
    refine ⟨_, _, ivtcGetFrame_weave _ api n t b hentry hne (Or.inr ⟨h1, h2⟩), rfl, ?_, ?_, hdiff⟩
    · simp only [finishProps_fields, newVideoFrame, mapSetInt, if_true, if_neg h1, if_neg h2,
        if_neg (hdiff h1 h2)]
      constructor
      · intro h; cases h
      · rintro (⟨h, _⟩ | ⟨_, h⟩)
        · exact absurd h h1
        · exact absurd h h2
    · simp only [finishProps_fields, newVideoFrame, mapSetInt, if_true, if_neg h1, if_neg h2,
        if_neg (hdiff h1 h2)]
      exact ⟨fun _ => ⟨h1, h2⟩, fun _ => trivial⟩
  · have hside : t = UINT_FAST32_MAX ∨ b = UINT_FAST32_MAX := by
      by_contra hc
      push_neg at hc
      exact hboth hc
    have hone : (t = UINT_FAST32_MAX ∧ b ≠ UINT_FAST32_MAX)
        ∨ (t ≠ UINT_FAST32_MAX ∧ b = UINT_FAST32_MAX) := by
      rcases hside with h | h
      · exact Or.inl ⟨h, fun hb => hnot ⟨h, hb⟩⟩
      · exact Or.inr ⟨fun ht => hnot ⟨ht, h⟩, h⟩
    cases ld with
    | false =>
      refine ⟨_, _, ivtcGetFrame_weave _ api n t b hentry hne (Or.inl rfl), rfl, ?_, ?_, hdiff⟩
      · have hsame : (if t = UINT_FAST32_MAX then b else t)
            = (if b = UINT_FAST32_MAX then (if t = UINT_FAST32_MAX then b else t) else b) := by
          rcases hone with ⟨h1, h2⟩ | ⟨h1, h2⟩
          · rw [if_pos h1, if_neg h2]
          · rw [if_neg h1, if_pos h2]
        simp only [finishProps_fields, newVideoFrame, mapSetInt, if_true, if_pos hsame]
        exact ⟨fun _ => hone, fun _ => trivial⟩
      · have hsame : (if t = UINT_FAST32_MAX then b else t)
            = (if b = UINT_FAST32_MAX then (if t = UINT_FAST32_MAX then b else t) else b) := by
          rcases hone with ⟨h1, h2⟩ | ⟨h1, h2⟩
          · rw [if_pos h1, if_neg h2]
          · rw [if_neg h1, if_pos h2]
        simp only [finishProps_fields, newVideoFrame, mapSetInt, if_true, if_pos hsame]
        constructor
        · intro h; cases h
        · intro h; exact absurd h hboth
    | true =>
      refine ⟨_, _, ivtcGetFrame_copy _ api n t b NodeRef.linedoubled hentry hne rfl hside,
        rfl, ?_, ?_, hdiff⟩
      · simp only [finishProps_fields, copyFrame, mapSetInt, if_true]
        exact ⟨fun _ => hone, fun _ => trivial⟩
      · simp only [finishProps_fields, copyFrame, mapSetInt, if_true]
        constructor
        · intro h; cases h
        · intro h; exact absurd h hboth

/-- Instance of C10: frame 3 of `tinyData` (no linedoubled clip) has the entry
`(MAX, 7)`, one side missing, and is tagged 1 and not 2. -/
theorem fields_used_tag_witness :
    ∃ r out, ivtcGetFrame (ivtcCreate tinyInfo false
          ⟨[0, 1, 2, 3, 4, 5, 8, 7, 8, 8], fun _ => none⟩) tinyAPI 3
          ActivationReason.arAllFramesReady = some r
      ∧ r.frame = some out
      ∧ (out.props "IVTCDN_Fields" = some (PropValue.int 1)
          ↔ (UINT_FAST32_MAX = UINT_FAST32_MAX ∧ 7 ≠ UINT_FAST32_MAX)
            ∨ (UINT_FAST32_MAX ≠ UINT_FAST32_MAX ∧ 7 = UINT_FAST32_MAX))
      ∧ (out.props "IVTCDN_Fields" = some (PropValue.int 2)
          ↔ (UINT_FAST32_MAX ≠ UINT_FAST32_MAX ∧ 7 ≠ UINT_FAST32_MAX))
      ∧ (UINT_FAST32_MAX ≠ UINT_FAST32_MAX → 7 ≠ UINT_FAST32_MAX → UINT_FAST32_MAX ≠ 7) :=
  fields_used_tag tinyInfo false ⟨[0, 1, 2, 3, 4, 5, 8, 7, 8, 8], fun _ => none⟩ tinyAPI 3
    UINT_FAST32_MAX 7 (by decide)

/-! ## Refusal of an empty pair -/

/-- C11. Synthesis of an `EMPTY_PAIR` is refused: when the plan entry of frame
`n` equals `EMPTY_PAIR`, `ivtcGetFrame` returns `nullptr` for every activation
reason, calls neither `requestFrameFilter` nor `getFrameFilter` on any node,
and builds no frame. -/
theorem empty_pair_refused (d : IvtcData) (api : VSAPI) (n : Nat) (r : ActivationReason)
    (hentry : d.fieldsForFrames[n]? = some EMPTY_PAIR) :
    ∃ res, ivtcGetFrame d api n r = some res
      ∧ res.frame.isNone = true ∧ res.requested = [] ∧ res.fetched = [] := by
  refine ⟨{ frame := none, requested := [], fetched := [] }, ?_, rfl, rfl, rfl⟩
  unfold ivtcGetFrame
  rw [hentry]
  simp only [if_true]

/-- Instance of C11: index 1 of `emptyEntryData` holds `EMPTY_PAIR`; the
all-frames-ready phase returns no frame and touches no node. -/
theorem empty_pair_refused_witness :
    ∃ res, ivtcGetFrame emptyEntryData tinyAPI 1 ActivationReason.arAllFramesReady = some res
      ∧ res.frame.isNone = true ∧ res.requested = [] ∧ res.fetched = [] :=
  empty_pair_refused emptyEntryData tinyAPI 1 ActivationReason.arAllFramesReady (by decide)

/-! ## Frame-count arithmetic -/

theorem visited_inner (c m : Nat) (acc : List Nat) :
    (List.range m).foldl (fun acc2 frameIdx => acc2 ++ [c * 4 + frameIdx]) acc
      = acc ++ (List.range m).map (fun x => 4 * c + x) := by
  induction m with
  | zero => simp
  | succ m ih =>
    rw [List.range_succ, List.foldl_append, ih]
    simp [Nat.mul_comm]

theorem visited_cycles (p : Project) (c : Nat) (hc : c ≤ completeCycles p) :
    (List.range c).foldl
        (fun acc cycleIdx =>
          (List.range (frameCountInCycle p cycleIdx)).foldl
            (fun acc2 frameIdx => acc2 ++ [cycleIdx * 4 + frameIdx]) acc)
        []
      = List.range (4 * c) := by
  induction c with
  | zero => rfl
  | succ c ih =>
    rw [List.range_succ, List.foldl_append, ih (by omega)]
    simp only [List.foldl_cons, List.foldl_nil]
    rw [visited_inner, frameCountInCycle_complete p c (by omega), ← List.range_add]
    rfl

theorem frameCount_sum (p : Project) (c : Nat) (hc : c ≤ completeCycles p) :
    ((List.range c).map (frameCountInCycle p)).sum = 4 * c := by
  induction c with
  | zero => rfl
  | succ c ih =>
    rw [List.range_succ, List.map_append, List.sum_append, ih (by omega)]
    simp only [List.map_cons, List.map_nil, List.sum_cons, List.sum_nil]
    rw [frameCountInCycle_complete p c (by omega)]
    omega

/-- C12. Frame-count arithmetic: with `L` the length of the action log,
`totalCycles = L / 10 + (L % 10 == 0 ? 0 : 1)`, the frame counts
`frameCountInCycle` of the `totalCycles` cycles add up to
`outputFrameCount = L / 10 * 4 + L % 10 * 2 / 5`, which is `2 * L / 5` rounded
down, and the indices `cycleIdx * 4 + frameIdx` computed by the loop are
`0, 1, ..., outputFrameCount - 1` in this order. -/
theorem frame_count_arithmetic (p : Project) :
    totalCycles p
        = p.ivtc_actions.length / 10 + (if p.ivtc_actions.length % 10 = 0 then 0 else 1)
    ∧ ((List.range (totalCycles p)).map (frameCountInCycle p)).sum = outputFrameCount p
    ∧ outputFrameCount p
        = p.ivtc_actions.length / 10 * 4 + p.ivtc_actions.length % 10 * 2 / 5
    ∧ outputFrameCount p = 2 * p.ivtc_actions.length / 5
    ∧ visitedFrames p = List.range (outputFrameCount p) := by
  have hr := fieldsWithIncompleteCycles_lt p
  have hl := frameCountInCycle_last p
  refine ⟨?_, ?_, rfl, ?_, ?_⟩
  · unfold totalCycles fieldsWithIncompleteCycles completeCycles expectedFields
    split <;> rfl
  · unfold totalCycles outputFrameCount
    by_cases h0 : fieldsWithIncompleteCycles p = 0
    · rw [if_pos h0, frameCount_sum p _ (le_refl _), h0]
      omega
    · rw [if_neg h0, List.range_succ, List.map_append, List.sum_append,
        frameCount_sum p _ (le_refl _)]
      simp only [List.map_cons, List.map_nil, List.sum_cons, List.sum_nil]
      rw [hl]
      omega
  · unfold outputFrameCount fieldsWithIncompleteCycles completeCycles expectedFields
    omega
  · unfold visitedFrames totalCycles outputFrameCount
    by_cases h0 : fieldsWithIncompleteCycles p = 0
    · rw [if_pos h0, visited_cycles p _ (le_refl _), h0]
      congr 1
      omega
    · rw [if_neg h0, List.range_succ, List.foldl_append, visited_cycles p _ (le_refl _)]
      simp only [List.foldl_cons, List.foldl_nil]
      rw [visited_inner, hl, ← List.range_add]
      congr 1
      omega

/-! ## Geometry and rate -/

theorem toInt32_of_inRange (x : Int) (h1 : -2147483648 ≤ x) (h2 : x ≤ 2147483647) :
    toInt32 x = x := by
  unfold toInt32
  omega

theorem toInt64_of_inRange (x : Int) (h1 : -9223372036854775808 ≤ x)
    (h2 : x ≤ 9223372036854775807) : toInt64 x = x := by
  unfold toInt64
  omega

theorem outputFrameCount_le (p : Project) : outputFrameCount p ≤ p.ivtc_actions.length := by
  unfold outputFrameCount fieldsWithIncompleteCycles completeCycles expectedFields
  omega

/-- C13. Geometry/rate transform of `ivtcCreate`: for every source video info
and action log of length `L` whose values stay within the machine integers
(`L` within the `int` range, twice the height an `int`, twice `fpsNum` an
`int64_t`), the output video info has `numFrames = L / 10 * 4 + L % 10 * 2 / 5`,
`height` twice the source height, `fpsNum = source fpsNum * 2 / 5` truncated,
and `fpsDen`, `width` and `format` of the source. -/
theorem geometry_rate_transform (clipInfo : VSVideoInfo) (ld : Bool) (p : Project)
    (hlen : InIntRange p)
    (hh : -2147483648 ≤ clipInfo.height * 2 ∧ clipInfo.height * 2 ≤ 2147483647)
    (hf : -9223372036854775808 ≤ clipInfo.fpsNum * 2
      ∧ clipInfo.fpsNum * 2 ≤ 9223372036854775807) :
    (ivtcCreate clipInfo ld p).vi.numFrames
        = ((p.ivtc_actions.length / 10 * 4 + p.ivtc_actions.length % 10 * 2 / 5 : Nat) : Int)
    ∧ (ivtcCreate clipInfo ld p).vi.height = 2 * clipInfo.height
    ∧ (ivtcCreate clipInfo ld p).vi.fpsNum = (clipInfo.fpsNum * 2).tdiv 5
    ∧ (ivtcCreate clipInfo ld p).vi.fpsDen = clipInfo.fpsDen
    ∧ (ivtcCreate clipInfo ld p).vi.width = clipInfo.width
    ∧ (ivtcCreate clipInfo ld p).vi.format = clipInfo.format := by
  have hle := outputFrameCount_le p
  unfold InIntRange INT_MAX at hlen
  refine ⟨?_, ?_, ?_, rfl, rfl, rfl⟩
  · show toInt32 (outputFrameCount p : Int) = _
    rw [toInt32_of_inRange _ (by omega) (by omega)]
    rfl
  · show toInt32 (clipInfo.height * 2) = _
    rw [toInt32_of_inRange _ hh.1 hh.2]
    omega
  · show (toInt64 (clipInfo.fpsNum * 2)).tdiv 5 = _
    rw [toInt64_of_inRange _ hf.1 hf.2]

/-- Instance of C13: 23 fields of a 720 x 240 clip at 60000/1001 give 9 frames
of height 480 at 24000/1001. -/
theorem geometry_rate_transform_witness :
    (ivtcCreate sampleInfo false ⟨List.replicate 23 8, fun _ => none⟩).vi.numFrames
        = (((List.replicate 23 (8 : Int)).length / 10 * 4
            + (List.replicate 23 (8 : Int)).length % 10 * 2 / 5 : Nat) : Int)
    ∧ (ivtcCreate sampleInfo false ⟨List.replicate 23 8, fun _ => none⟩).vi.height
        = 2 * sampleInfo.height
    ∧ (ivtcCreate sampleInfo false ⟨List.replicate 23 8, fun _ => none⟩).vi.fpsNum
        = (sampleInfo.fpsNum * 2).tdiv 5
    ∧ (ivtcCreate sampleInfo false ⟨List.replicate 23 8, fun _ => none⟩).vi.fpsDen
        = sampleInfo.fpsDen
    ∧ (ivtcCreate sampleInfo false ⟨List.replicate 23 8, fun _ => none⟩).vi.width
        = sampleInfo.width
    ∧ (ivtcCreate sampleInfo false ⟨List.replicate 23 8, fun _ => none⟩).vi.format
        = sampleInfo.format :=
  geometry_rate_transform sampleInfo false ⟨List.replicate 23 8, fun _ => none⟩
    (by decide) (by decide) (by decide)

/-! ## Freeze directive and tag -/

theorem noMatch_iff (p : Project) (c f : Nat) (hf : f < 4) :
    NoMatch p c f
      ↔ topOf p c f = -1 ∧ bottomOf p c f = -1 ∧ ¬ carryAhead p c f = true := by
  constructor
  · exact noMatch_tops p c f hf
  · rintro ⟨h1, h2, h3⟩
    refine ⟨?_, ?_, ?_⟩
    · unfold topOf at h1; rw [top_code f hf] at h1; exact (findIndex_eq_neg_one _ _).1 h1
    · unfold bottomOf at h2; rw [bottom_code f hf] at h2
      exact (findIndex_eq_neg_one _ _).1 h2
    · rw [← carryAhead_iff]; exact h3

/-- A frame with a role match or a carry writes no freeze directive. -/
theorem matchStep_freeze_unchanged (p : Project) (c f : Nat) (st : LoopState)
    (h : ¬ (topOf p c f = -1 ∧ bottomOf p c f = -1 ∧ ¬ carryAhead p c f = true)) :
    (matchStep p c f st).freezeFrameHandling = st.freezeFrameHandling := by
  unfold matchStep
  simp only
  split_ifs with h1 h2 h3 <;> first
    | rfl
    | exact absurd ⟨h1.1, h1.2, h2⟩ h

/-- Before frame `n` is processed, no directive is recorded for it. -/
theorem flatLoop_freeze_none (p : Project) (k n : Nat) (hk : k ≤ n) :
    (flatLoop p k).freezeFrameHandling n = none := by
  induction k with
  | zero => rfl
  | succ k ih =>
    show (pushStep (matchStep p (k / 4) (k % 4) (flatLoop p k))).freezeFrameHandling n = none
    rw [pushStep_freeze, matchStep_freeze_other p _ _ n _ (by omega)]
    exact ih (by omega)

/-- The directive recorded for an output frame `n`. -/
theorem directive_of_frame (p : Project) (n : Nat) (hn : n < outputFrameCount p) :
    (compileLoop p).freezeFrameHandling n
      = if NoMatch p (n / 4) (n % 4) then
          (if p.no_match_handling (toString n) = some "Next" then some "Next"
           else some "Previous")
        else none := by
  have hf : n % 4 < 4 := Nat.mod_lt _ (by decide)
  have hkey : n / 4 * 4 + n % 4 = n := by omega
  rw [compileLoop_freeze p n hn]
  by_cases hno : NoMatch p (n / 4) (n % 4)
  · rw [if_pos hno]
    obtain ⟨ht, hb, hca⟩ := noMatch_tops p _ _ hf hno
    by_cases hnx : p.no_match_handling (toString n) = some "Next"
    · rw [if_pos hnx, (matchStep_next p _ _ _ ht hb hca (by rw [hkey]; exact hnx)).2]
      simp [mapSet, hkey]
    · rw [if_neg hnx, (matchStep_previous p _ _ _ ht hb hca (by rw [hkey]; exact hnx)).2]
      simp [mapSet, hkey]
  · rw [if_neg hno, matchStep_freeze_unchanged p _ _ _ (fun h => hno ((noMatch_iff p _ _ hf).2 h))]
    exact flatLoop_freeze_none p n n (le_refl _)

theorem finishProps_freeze (d : IvtcData) (n : Nat) (props : String → Option PropValue) :
    finishProps d n props "IVTCDN_FreezeFrame"
      = match d.freezeFrameHandling n with
        | some v => some (PropValue.data v)
        | none => props "IVTCDN_FreezeFrame" := by
  have h1 : ("IVTCDN_FreezeFrame" : String) ≠ "_FieldBased" := by decide
  have h2 : ("IVTCDN_FreezeFrame" : String) ≠ "_Field" := by decide
  unfold finishProps mapSetInt mapDeleteKey
  simp only [if_neg h1, if_neg h2]
  cases d.freezeFrameHandling n with
  | none => rfl
  | some s => simp only [mapSetData, if_true]

/-- The freeze tag of a synthesized frame: the directive of frame `n` when
there is one, otherwise whatever the first fetched frame, whose properties the
output inherits, carries under that key. -/
theorem freeze_tag (d : IvtcData) (api : VSAPI) (n t b : Nat)
    (hentry : d.fieldsForFrames[n]? = some (t, b)) (hne : (t, b) ≠ EMPTY_PAIR) :
    ∃ r out src, ivtcGetFrame d api n ActivationReason.arAllFramesReady = some r
      ∧ r.frame = some out ∧ r.fetched.head? = some src
      ∧ out.props "IVTCDN_FreezeFrame"
          = match d.freezeFrameHandling n with
            | some v => some (PropValue.data v)
            | none => (api.getFrameFilter src.1 src.2).props "IVTCDN_FreezeFrame" := by
  have hk : ("IVTCDN_FreezeFrame" : String) ≠ "IVTCDN_Fields" := by decide
  by_cases hw : d.linedoubledNode = none ∨ (t ≠ UINT_FAST32_MAX ∧ b ≠ UINT_FAST32_MAX)
  · refine ⟨_, _, _, ivtcGetFrame_weave d api n t b hentry hne hw, rfl, rfl, ?_⟩
    simp only [finishProps_freeze, newVideoFrame, mapSetInt, if_neg hk]
  · cases hl : d.linedoubledNode with
    | none => exact absurd (Or.inl hl) hw
    | some l =>
      have hside : t = UINT_FAST32_MAX ∨ b = UINT_FAST32_MAX := by
        by_contra hc
        push_neg at hc
        exact hw (Or.inr hc)
      refine ⟨_, _, _, ivtcGetFrame_copy d api n t b l hentry hne hl hside, rfl, rfl, ?_⟩
      simp only [finishProps_freeze, copyFrame, mapSetInt, if_neg hk]

/-- C14. Freeze directive and tag: for every output frame `n` of the loop,
`ivtcCreate` records a freeze directive for `n` exactly when neither role code
of `n` occurs in its cycle window and the frame-3 carry lookahead does not
apply; the directive is "Next" exactly when moreover `no_match_handling` maps
the decimal string of `n` to "Next", and "Previous" otherwise.  In the
all-frames-ready phase `ivtcGetFrame`, in the weave and in the copy branch,
sets `IVTCDN_FreezeFrame` to the directive of `n` when there is one, and
otherwise leaves that key as inherited from the first fetched frame. -/
theorem freeze_directive_and_tag (vi : VSVideoInfo) (ld : Bool) (p : Project) (api : VSAPI)
    (n : Nat) (hn : n < outputFrameCount p) :
    ((ivtcCreate vi ld p).freezeFrameHandling n ≠ none ↔ NoMatch p (n / 4) (n % 4))
    ∧ ((ivtcCreate vi ld p).freezeFrameHandling n = some "Next"
        ↔ NoMatch p (n / 4) (n % 4) ∧ p.no_match_handling (toString n) = some "Next")
    ∧ ((ivtcCreate vi ld p).freezeFrameHandling n = some "Previous"
        ↔ NoMatch p (n / 4) (n % 4) ∧ p.no_match_handling (toString n) ≠ some "Next")
    ∧ ∀ t b, (ivtcCreate vi ld p).fieldsForFrames[n]? = some (t, b) →
        ∃ r out src,
          ivtcGetFrame (ivtcCreate vi ld p) api n ActivationReason.arAllFramesReady = some r
          ∧ r.frame = some out ∧ r.fetched.head? = some src
          ∧ (∀ v, (ivtcCreate vi ld p).freezeFrameHandling n = some v →
              out.props "IVTCDN_FreezeFrame" = some (PropValue.data v))
          ∧ ((ivtcCreate vi ld p).freezeFrameHandling n = none →
              out.props "IVTCDN_FreezeFrame"
                = (api.getFrameFilter src.1 src.2).props "IVTCDN_FreezeFrame") := by
  have hd := directive_of_frame p n hn
  have hnp : ("Next" : String) ≠ "Previous" := by decide
  rw [ivtcCreate_freeze]
  refine ⟨?_, ?_, ?_, ?_⟩
  · rw [hd]
    by_cases hno : NoMatch p (n / 4) (n % 4)
    · rw [if_pos hno]
      refine ⟨fun _ => hno, fun _ => ?_⟩
      split <;> exact fun h => by cases h
    · rw [if_neg hno]
      exact ⟨fun h => absurd rfl h, fun h => absurd h hno⟩
  · rw [hd]
    by_cases hno : NoMatch p (n / 4) (n % 4)
    · by_cases hnx : p.no_match_handling (toString n) = some "Next"
      · rw [if_pos hno, if_pos hnx]
        exact ⟨fun _ => ⟨hno, hnx⟩, fun _ => rfl⟩
      · rw [if_pos hno, if_neg hnx]
        exact ⟨fun h => absurd (Option.some.inj h).symm hnp, fun h => absurd h.2 hnx⟩
    · rw [if_neg hno]
      exact ⟨fun h => (by cases h), fun h => absurd h.1 hno⟩
  · rw [hd]
    by_cases hno : NoMatch p (n / 4) (n % 4)
    · by_cases hnx : p.no_match_handling (toString n) = some "Next"
      · rw [if_pos hno, if_pos hnx]
        exact ⟨fun h => absurd (Option.some.inj h) hnp, fun h => absurd hnx h.2⟩
      · rw [if_pos hno, if_neg hnx]
        exact ⟨fun _ => ⟨hno, hnx⟩, fun _ => rfl⟩
    · rw [if_neg hno]
      exact ⟨fun h => (by cases h), fun h => absurd h.1 hno⟩
  · intro t b hentry
    have hne := (compiled_pair p n t b hentry).1
    obtain ⟨r, out, src, h1, h2, h3, h4⟩ := freeze_tag (ivtcCreate vi ld p) api n t b hentry hne
    refine ⟨r, out, src, h1, h2, h3, ?_, ?_⟩
    · intro v hv
      rw [h4, ivtcCreate_freeze, hv]
    · intro hv
      rw [h4, ivtcCreate_freeze, hv]

/-- Instance of C14: in the log `[0,1,8,8,8,8,6,7,8,8]` with the override
`"1" ↦ "Next"`, frame 2 has no role match, no carry and no "Next" override; its
directive is "Previous" and the synthesized frame carries that tag. -/
theorem freeze_directive_and_tag_witness :
    (ivtcCreate tinyInfo false ⟨[0, 1, 8, 8, 8, 8, 6, 7, 8, 8],
        fun k => if k = "1" then some "Next" else none⟩).freezeFrameHandling 2
      = some "Previous"
    ∧ ∃ r out, ivtcGetFrame (ivtcCreate tinyInfo false ⟨[0, 1, 8, 8, 8, 8, 6, 7, 8, 8],
          fun k => if k = "1" then some "Next" else none⟩) tinyAPI 2
          ActivationReason.arAllFramesReady = some r
        ∧ r.frame = some out
        ∧ out.props "IVTCDN_FreezeFrame" = some (PropValue.data "Previous") := by
  have h := freeze_directive_and_tag tinyInfo false
    ⟨[0, 1, 8, 8, 8, 8, 6, 7, 8, 8], fun k => if k = "1" then some "Next" else none⟩
    tinyAPI 2 (by decide)
  have hd := h.2.2.1.2 ⟨by decide, by decide⟩
  obtain ⟨r, out, _, h1, h2, _, h4, _⟩ := h.2.2.2 6 7 (by decide)
  exact ⟨hd, r, out, h1, h2, h4 "Previous" hd⟩

/-! ## No-match carry and repeated frames -/

/-- C15. No-match carry: in a complete cycle `c` whose frame 3 has neither role
code 6 nor 7 in the window, with the action at index `10 * (c + 1)` present and
equal to 9, the plan entry of frame `4 * c + 3` is
`(10 * (c + 1), UINT_FAST32_MAX)` whatever the override table holds, and no
freeze directive is recorded for that frame. -/
theorem no_match_carry (vi : VSVideoInfo) (ld : Bool) (p : Project) (c : Nat)
    (hr : InIntRange p) (hc : c < completeCycles p)
    (h6 : (6 : Int) ∉ cycleActions p c) (h7 : (7 : Int) ∉ cycleActions p c)
    (h9 : p.ivtc_actions[10 * (c + 1)]? = some 9) :
    (ivtcCreate vi ld p).fieldsForFrames[4 * c + 3]? = some (10 * (c + 1), UINT_FAST32_MAX)
    ∧ (ivtcCreate vi ld p).freezeFrameHandling (4 * c + 3) = none := by
  have hn := complete_cycle_frame_lt p c 3 hc (by decide)
  rw [ivtcCreate_fields, ivtcCreate_freeze]
  constructor
  · apply plan_at_of_resolves p c 3 _ hr (by decide) hn
    exact Or.inr ⟨rfl, h6, h9, rfl, Or.inl ⟨h7, rfl⟩⟩
  · rw [directive_of_frame p _ hn, if_neg]
    rw [show (4 * c + 3) / 4 = c by omega, show (4 * c + 3) % 4 = 3 by omega]
    intro hno
    exact hno.2.2 ⟨rfl, h9⟩

/-- Instance of C15: cycle 0 of `[0,1,2,3,4,5,8,8,8,8,9]` has no code 6 or 7 and
`actions[10] = 9`; frame 3 gets `(10, UINT_FAST32_MAX)` although the override
table says "Next" for it, and no directive is recorded. -/
theorem no_match_carry_witness :
    (ivtcCreate sampleInfo false ⟨[0, 1, 2, 3, 4, 5, 8, 8, 8, 8, 9],
        fun k => if k = "3" then some "Next" else none⟩).fieldsForFrames[4 * 0 + 3]?
      = some (10 * (0 + 1), UINT_FAST32_MAX)
    ∧ (ivtcCreate sampleInfo false ⟨[0, 1, 2, 3, 4, 5, 8, 8, 8, 8, 9],
        fun k => if k = "3" then some "Next" else none⟩).freezeFrameHandling (4 * 0 + 3)
      = none :=
  no_match_carry sampleInfo false
    ⟨[0, 1, 2, 3, 4, 5, 8, 8, 8, 8, 9], fun k => if k = "3" then some "Next" else none⟩ 0
    (by decide) (by decide) (by decide) (by decide) (by decide)

/-- Over a run of default "Previous" freezes after a frame that resolved to `P`
the last specified pair stays `P`. -/
theorem last_over_previous_run (p : Project) (q m : Nat) (P : Nat × Nat)
    (hP : Resolves p (q / 4) (q % 4) P)
    (hrun : ∀ j, q < j → j ≤ m →
      NoMatch p (j / 4) (j % 4) ∧ p.no_match_handling (toString j) ≠ some "Next") :
    ∀ j, q ≤ j → j ≤ m → (flatLoop p (j + 1)).lastSpecifiedFrame = P := by
  intro j hj1 hj2
  induction j with
  | zero =>
    have : q = 0 := by omega
    subst this
    rw [flatLoop_last]
    exact resolves_last p _ _ P _ (Nat.mod_lt _ (by decide)) hP
  | succ j ih =>
    rw [flatLoop_last]
    by_cases hq : q = j + 1
    · subst hq
      exact resolves_last p _ _ P _ (Nat.mod_lt _ (by decide)) hP
    · obtain ⟨hno, hnx⟩ := hrun (j + 1) (by omega) hj2
      obtain ⟨ht, hb, hca⟩ := noMatch_tops p _ _ (Nat.mod_lt _ (by decide)) hno
      have hkey : (j + 1) / 4 * 4 + (j + 1) % 4 = j + 1 := by omega
      rw [(matchStep_previous p _ _ _ ht hb hca (by rw [hkey]; exact hnx)).1]
      exact ih (by omega) (by omega)

/-- C16. Default "Previous" freeze repeats the preceding frame: when frame `q`
resolves to the pair `P` by role match or carry and the frames `q + 1, ..., m`
have neither role code in their cycle, no carry and no "Next" override, every
plan entry from `q` to `m` exists and is `P`; in particular the entry of a
"Previous" freeze frame `n = q + 1` equals the entry of frame `n - 1`. -/
theorem previous_freeze_repeats (vi : VSVideoInfo) (ld : Bool) (p : Project) (q m : Nat)
    (P : Nat × Nat) (hr : InIntRange p) (hm : m < outputFrameCount p)
    (hP : Resolves p (q / 4) (q % 4) P)
    (hrun : ∀ j, q < j → j ≤ m →
      NoMatch p (j / 4) (j % 4) ∧ p.no_match_handling (toString j) ≠ some "Next") :
    ∀ i, q ≤ i → i ≤ m →
      (ivtcCreate vi ld p).fieldsForFrames[i]? = some P
      ∧ (ivtcCreate vi ld p).fieldsForFrames[i]? = (ivtcCreate vi ld p).fieldsForFrames[q]? := by
  have hne := resolves_ne_empty p _ _ P hr hP
  have hall : ∀ i, q ≤ i → i ≤ m → (compileLoop p).fieldsForFrames[i]? = some P := by
    intro i hi1 hi2
    apply plan_at_of_last p i (by omega) P _ hne
    rw [← flatLoop_last]
    exact last_over_previous_run p q m P hP hrun i hi1 hi2
  intro i hi1 hi2
  rw [ivtcCreate_fields, hall i hi1 hi2, hall q (le_refl _) (by omega)]
  exact ⟨rfl, rfl⟩

/-- Instance of C16: in `[0,1,8,8,8,8,6,7,8,8]` without overrides frame 0
resolves to `(0, 1)` and the frames 1 and 2 are "Previous" freezes; the entries
of frames 1 and 2 are `(0, 1)` as well. -/
theorem previous_freeze_repeats_witness :
    (ivtcCreate sampleInfo false
        ⟨[0, 1, 8, 8, 8, 8, 6, 7, 8, 8], fun _ => none⟩).fieldsForFrames[1]? = some (0, 1)
    ∧ (ivtcCreate sampleInfo false
        ⟨[0, 1, 8, 8, 8, 8, 6, 7, 8, 8], fun _ => none⟩).fieldsForFrames[2]? = some (0, 1) :=
  have h := previous_freeze_repeats sampleInfo false
    ⟨[0, 1, 8, 8, 8, 8, 6, 7, 8, 8], fun _ => none⟩ 0 2 (0, 1) (by decide) (by decide)
    (Or.inl ⟨by decide, by decide, Or.inr ⟨0, by decide, rfl⟩, Or.inr ⟨1, by decide, rfl⟩⟩)
    (by
      intro j h1 h2
      have hj : j = 1 ∨ j = 2 := by omega
      rcases hj with rfl | rfl <;> decide)
  ⟨(h 1 (by decide) (by decide)).1, (h 2 (by decide) (by decide)).1⟩

/-! ## Requests and fetches -/

/-- Initial phase for a pair with both sides concrete. -/
theorem ivtcGetFrame_initial_both (d : IvtcData) (api : VSAPI) (n t b : Nat)
    (hentry : d.fieldsForFrames[n]? = some (t, b)) (hne : (t, b) ≠ EMPTY_PAIR)
    (ht : t ≠ UINT_FAST32_MAX) (hb : b ≠ UINT_FAST32_MAX) :
    ivtcGetFrame d api n ActivationReason.arInitial
      = some { frame := none, requested := [(t, d.videoNode), (b, d.videoNode)], fetched := [] } := by
  unfold ivtcGetFrame
  rw [hentry]
  simp only [if_neg hne]
  rw [if_pos ⟨ht, hb⟩]

/-- Initial phase for a pair with one side missing: `c` is the present side. -/
theorem ivtcGetFrame_initial_one (d : IvtcData) (api : VSAPI) (n t b c : Nat)
    (hentry : d.fieldsForFrames[n]? = some (t, b)) (hc : c ≠ UINT_FAST32_MAX)
    (hone : (t = c ∧ b = UINT_FAST32_MAX) ∨ (t = UINT_FAST32_MAX ∧ b = c)) :
    ivtcGetFrame d api n ActivationReason.arInitial
      = some { frame := none
               requested := [(c, match d.linedoubledNode with
                                 | none => d.videoNode
                                 | some l => l)]
               fetched := [] } := by
  have hne : (t, b) ≠ EMPTY_PAIR := by
    rcases hone with ⟨h1, _⟩ | ⟨_, h2⟩
    · exact pair_ne_empty_left (h1 ▸ hc)
    · exact pair_ne_empty_right (h2 ▸ hc)
  unfold ivtcGetFrame
  rw [hentry]
  simp only [if_neg hne]
  rcases hone with ⟨h1, h2⟩ | ⟨h1, h2⟩
  · subst h1
    rw [if_neg (fun h => h.2 h2), if_pos hc]
  · subst h2
    rw [if_neg (fun h => h.1 h1), if_neg (fun h => h h1)]

/-- C17. Request/fetch consistency of the two phases of `ivtcGetFrame`: for a
plan entry other than `EMPTY_PAIR`, with or without a linedoubled clip, the
(frame number, node) pairs fetched with `getFrameFilter` in the all-frames-ready
phase are exactly those requested with `requestFrameFilter` in the initial
phase.  A one-sided pair without a linedoubled clip requests and reads only the
present index from the clip; with a linedoubled clip it requests and reads only
that index from the linedoubled clip. -/
theorem request_fetch_consistent (d : IvtcData) (api : VSAPI) (n t b : Nat)
    (hentry : d.fieldsForFrames[n]? = some (t, b)) (hne : (t, b) ≠ EMPTY_PAIR) :
    ∃ r0 r1, ivtcGetFrame d api n ActivationReason.arInitial = some r0
      ∧ ivtcGetFrame d api n ActivationReason.arAllFramesReady = some r1
      ∧ r0.frame.isNone = true ∧ r0.fetched = [] ∧ r1.requested = []
      ∧ (∀ x, x ∈ r1.fetched ↔ x ∈ r0.requested)
      ∧ (∀ c, ((t = c ∧ b = UINT_FAST32_MAX) ∨ (t = UINT_FAST32_MAX ∧ b = c)) →
          d.linedoubledNode = none →
          r0.requested = [(c, d.videoNode)] ∧ ∀ x ∈ r1.fetched, x = (c, d.videoNode))
      ∧ (∀ c l, ((t = c ∧ b = UINT_FAST32_MAX) ∨ (t = UINT_FAST32_MAX ∧ b = c)) →
          d.linedoubledNode = some l →
          r0.requested = [(c, l)] ∧ r1.fetched = [(c, l)]) := by
  by_cases hboth : t ≠ UINT_FAST32_MAX ∧ b ≠ UINT_FAST32_MAX
  · obtain ⟨ht, hb⟩ := hboth
    refine ⟨_, _, ivtcGetFrame_initial_both d api n t b hentry hne ht hb,
      ivtcGetFrame_weave d api n t b hentry hne (Or.inr ⟨ht, hb⟩), rfl, rfl, rfl, ?_, ?_, ?_⟩
    · intro x
      simp only [weaveBranch, if_neg ht, if_neg hb]
    · rintro c (⟨_, h⟩ | ⟨h, _⟩) _
      · exact absurd h hb
      · exact absurd h ht
    · rintro c l (⟨_, h⟩ | ⟨h, _⟩) _
      · exact absurd h hb
      · exact absurd h ht
  · have hnot : ¬ (t = UINT_FAST32_MAX ∧ b = UINT_FAST32_MAX) := by
      rintro ⟨h1, h2⟩
      exact hne (by rw [h1, h2]; rfl)
    have hside : t = UINT_FAST32_MAX ∨ b = UINT_FAST32_MAX := by
      by_contra hc
      push_neg at hc
      exact hboth hc
    -- the present side
    obtain ⟨c, hc, hone⟩ : ∃ c, c ≠ UINT_FAST32_MAX
        ∧ ((t = c ∧ b = UINT_FAST32_MAX) ∨ (t = UINT_FAST32_MAX ∧ b = c)) := by
      rcases hside with h | h
      · exact ⟨b, fun hb => hnot ⟨h, hb⟩, Or.inr ⟨h, rfl⟩⟩
      · exact ⟨t, fun ht => hnot ⟨ht, h⟩, Or.inl ⟨rfl, h⟩⟩
    have huniq : ∀ c2, ((t = c2 ∧ b = UINT_FAST32_MAX) ∨ (t = UINT_FAST32_MAX ∧ b = c2)) →
        c2 = c := by
      intro c2 h2
      rcases hone with ⟨h1, h1b⟩ | ⟨h1, h1b⟩ <;> rcases h2 with ⟨g1, g1b⟩ | ⟨g1, g1b⟩
      · rw [← g1, h1]
      · exact absurd (h1 ▸ g1) hc
      · exact absurd (h1b ▸ g1b) hc
      · rw [← g1b, h1b]
    have htop1 : (if t = UINT_FAST32_MAX then b else t) = c := by
      rcases hone with ⟨h1, _⟩ | ⟨h1, h2⟩
      · rw [if_neg (h1 ▸ hc), h1]
      · rw [if_pos h1, h2]
    have hbot1 : (if b = UINT_FAST32_MAX then (if t = UINT_FAST32_MAX then b else t) else b)
        = c := by
      rcases hone with ⟨_, h2⟩ | ⟨_, h2⟩
      · rw [if_pos h2, htop1]
      · rw [if_neg (h2 ▸ hc), h2]
    have hbot2 : (if b = UINT_FAST32_MAX then c else b) = c := by
      rw [← htop1] at hbot1 ⊢
      rw [hbot1]
    cases hl : d.linedoubledNode with
    | none =>
      have hi := ivtcGetFrame_initial_one d api n t b c hentry hc hone
      rw [hl] at hi
      refine ⟨_, _, hi, ivtcGetFrame_weave d api n t b hentry hne (Or.inl hl),
        rfl, rfl, rfl, ?_, ?_, ?_⟩
      · intro x
        simp only [weaveBranch, htop1, hbot2, List.mem_cons, List.mem_singleton, or_self,
          List.mem_nil_iff, or_false]
      · intro c2 h2 _
        rw [huniq c2 h2]
        refine ⟨rfl, ?_⟩
        intro x hx
        simp only [weaveBranch, htop1, hbot2, List.mem_cons, List.mem_singleton, or_self,
          List.mem_nil_iff, or_false] at hx
        exact hx
      · intro c2 l _ hl2
        cases hl2
    | some l =>
      have hi := ivtcGetFrame_initial_one d api n t b c hentry hc hone
      rw [hl] at hi
      refine ⟨_, _, hi, ivtcGetFrame_copy d api n t b l hentry hne hl hside,
        rfl, rfl, rfl, ?_, ?_, ?_⟩
      · intro x
        simp only [copyBranch, htop1]
      · intro c2 _ hl2
        cases hl2
      · intro c2 l2 h2 hl2
        cases hl2
        rw [huniq c2 h2]
        simp only [copyBranch, htop1, and_self]

/-- Instance of C17: frame 3 of `tinyDataLd` has the entry `(MAX, 7)`; with the
linedoubled clip, frame 7 of that clip is the only frame requested and the only
frame fetched. -/
theorem request_fetch_consistent_witness :
    ∃ r0 r1, ivtcGetFrame tinyDataLd tinyAPI 3 ActivationReason.arInitial = some r0
      ∧ ivtcGetFrame tinyDataLd tinyAPI 3 ActivationReason.arAllFramesReady = some r1
      ∧ r0.requested = [(7, NodeRef.linedoubled)]
      ∧ r1.fetched = [(7, NodeRef.linedoubled)] := by
  obtain ⟨r0, r1, h0, h1, _, _, _, _, _, h⟩ :=
    request_fetch_consistent tinyDataLd tinyAPI 3 UINT_FAST32_MAX 7 (by decide) (by decide)
  exact ⟨r0, r1, h0, h1, h 7 NodeRef.linedoubled (Or.inr ⟨rfl, rfl⟩) rfl⟩

/-! ## Invariants of the compiled plan -/

/-- C18. The compiler never stores an `EMPTY_PAIR`: every entry of the plan
produced by `ivtcCreate` differs from `EMPTY_PAIR`, that is, has at least one
concrete side; hence for an index inside the plan the `EMPTY_PAIR` test of
`ivtcGetFrame` is never taken, and the all-frames-ready phase returns a frame. -/
theorem never_stores_empty_pair (vi : VSVideoInfo) (ld : Bool) (p : Project) :
    (∀ x, x ∈ (ivtcCreate vi ld p).fieldsForFrames →
      x ≠ EMPTY_PAIR ∧ (x.1 ≠ UINT_FAST32_MAX ∨ x.2 ≠ UINT_FAST32_MAX))
    ∧ (∀ n : Nat, (ivtcCreate vi ld p).fieldsForFrames[n]? ≠ some EMPTY_PAIR)
    ∧ ∀ (api : VSAPI) (n : Nat), n < (ivtcCreate vi ld p).fieldsForFrames.length →
        ∃ r out, ivtcGetFrame (ivtcCreate vi ld p) api n ActivationReason.arAllFramesReady
            = some r ∧ r.frame = some out := by
  rw [ivtcCreate_fields]
  refine ⟨?_, fun n => compileLoop_getElem?_ne_empty p n, ?_⟩
  · intro x hx
    rw [compileLoop_eq_flatLoop] at hx
    have hne := flatLoop_no_empty p _ x hx
    refine ⟨hne, ?_⟩
    by_contra hc
    push_neg at hc
    exact hne (Prod.ext hc.1 hc.2)
  · intro api n hn
    obtain ⟨⟨t, b⟩, hentry⟩ : ∃ x, (compileLoop p).fieldsForFrames[n]? = some x :=
      ⟨_, List.getElem?_eq_getElem hn⟩
    have hne := (compiled_pair p n t b hentry).1
    obtain ⟨r, out, _, h1, h2, _⟩ := freeze_tag (ivtcCreate vi ld p) api n t b hentry hne
    exact ⟨r, out, h1, h2⟩

/-- Instance of C18: the entry `(UINT_FAST32_MAX, 7)` of `tinyData` is not
`EMPTY_PAIR`, and frame 3, the last index of the plan, is synthesized. -/
theorem never_stores_empty_pair_witness :
    ((UINT_FAST32_MAX, 7) : Nat × Nat) ≠ EMPTY_PAIR
    ∧ ∃ r out, ivtcGetFrame (ivtcCreate tinyInfo false
          ⟨[0, 1, 2, 3, 4, 5, 8, 7, 8, 8], fun _ => none⟩) tinyAPI 3
          ActivationReason.arAllFramesReady = some r ∧ r.frame = some out :=
  have h := never_stores_empty_pair tinyInfo false
    ⟨[0, 1, 2, 3, 4, 5, 8, 7, 8, 8], fun _ => none⟩
  ⟨(h.1 (UINT_FAST32_MAX, 7) (by decide)).1, h.2.2 tinyAPI 3 (by decide)⟩

/-- A side computed from the window of cycle `c` for the code `v` is either the
sentinel written for "not found" or a position of cycle `c` that holds `v`. -/
theorem sideAt_points (p : Project) (c : Nat) (v : Int) :
    findIndex (cycleActions p c) v = -1
    ∨ (p.ivtc_actions[sideAt (c * 10) (findIndex (cycleActions p c) v)]? = some v
        ∧ 10 * c ≤ sideAt (c * 10) (findIndex (cycleActions p c) v)
        ∧ sideAt (c * 10) (findIndex (cycleActions p c) v) < 10 * c + 10) := by
  by_cases h : findIndex (cycleActions p c) v = -1
  · exact Or.inl h
  · right
    obtain ⟨e, hlt, hg⟩ := sideAt_of_found (cycleActions p c) v (c * 10) h
    have hlen := cycleActions_length_le p c
    obtain ⟨h1, _⟩ := cycleActions_getElem? p c _ hlt
    rw [e]
    refine ⟨?_, by omega, by omega⟩
    rw [← h1]
    exact hg

theorem sideAt_neg_one (base : Nat) : sideAt base (-1) = UINT_FAST32_MAX := by
  unfold sideAt
  rw [if_pos rfl]

/-- The pair left by one frame is the pair it found before, or it points at the
actions of this frame. -/
theorem matchStep_formed (p : Project) (c f : Nat) (st : LoopState) (hf : f < 4) :
    (matchStep p c f st).lastSpecifiedFrame = st.lastSpecifiedFrame
      ∨ FormedAt p c f (matchStep p c f st).lastSpecifiedFrame := by
  have hT := sideAt_points p c (TOP_FRAMES.getD f 0)
  have hB := sideAt_points p c (BOTTOM_FRAMES.getD f 0)
  rw [top_code f hf] at hT
  rw [bottom_code f hf] at hB
  have htopOf : topOf p c f = findIndex (cycleActions p c) ((2 * f : Nat) : Int) := by
    unfold topOf; rw [top_code f hf]
  have hbotOf : bottomOf p c f = findIndex (cycleActions p c) ((2 * f + 1 : Nat) : Int) := by
    unfold bottomOf; rw [bottom_code f hf]
  have hbottom : ∀ x, x = sideAt (c * 10) (bottomOf p c f) → x ≠ UINT_FAST32_MAX →
      p.ivtc_actions[x]? = some ((2 * f + 1 : Nat) : Int) ∧ 10 * c ≤ x ∧ x < 10 * c + 10 := by
    intro x hx hxm
    rw [hbotOf] at hx
    rcases hB with h | h
    · rw [h, sideAt_neg_one] at hx
      exact absurd hx hxm
    · rw [hx]; exact h
  have htop : ∀ x, x = sideAt (c * 10) (topOf p c f) → x ≠ UINT_FAST32_MAX →
      p.ivtc_actions[x]? = some ((2 * f : Nat) : Int) ∧ 10 * c ≤ x ∧ x < 10 * c + 10 := by
    intro x hx hxm
    rw [htopOf] at hx
    rcases hT with h | h
    · rw [h, sideAt_neg_one] at hx
      exact absurd hx hxm
    · rw [hx]; exact h
  by_cases hca : topOf p c f = -1 ∧ carryAhead p c f = true
  · obtain ⟨ht, hc⟩ := hca
    obtain ⟨h3, h9⟩ := (carryAhead_iff p c f).1 hc
    right
    by_cases hb : bottomOf p c f = -1
    · rw [matchStep_carry_none p c f st ht hb hc]
      refine ⟨fun _ => Or.inr ⟨h3, by show c * 10 + 10 = _; omega, ?_⟩, fun h => absurd rfl h⟩
      show p.ivtc_actions[c * 10 + 10]? = some 9
      rw [show c * 10 + 10 = 10 * (c + 1) by omega]
      exact h9
    · rw [matchStep_carry_bottom p c f st ht hb hc]
      refine ⟨fun _ => Or.inr ⟨h3, by show c * 10 + 10 = _; omega, ?_⟩, hbottom _ rfl⟩
      show p.ivtc_actions[c * 10 + 10]? = some 9
      rw [show c * 10 + 10 = 10 * (c + 1) by omega]
      exact h9
  · by_cases hfound : topOf p c f ≠ -1 ∨ bottomOf p c f ≠ -1
    · right
      rw [matchStep_role p c f st hfound hca]
      exact ⟨fun h => Or.inl (htop _ rfl h), hbottom _ rfl⟩
    · push_neg at hfound
      obtain ⟨ht, hb⟩ := hfound
      have hc : ¬ carryAhead p c f = true := fun h => hca ⟨ht, h⟩
      by_cases hnx : p.no_match_handling (toString (c * 4 + f)) = some "Next"
      · right
        rw [(matchStep_next p c f st ht hb hc hnx).1]
        exact ⟨fun h => absurd rfl h, fun h => absurd rfl h⟩
      · left
        exact (matchStep_previous p c f st ht hb hc hnx).1

/-- Every pair kept by the loop after `k` frames, as last specified pair or in
the plan, points at the actions of one of these `k` frames. -/
theorem flatLoop_formed (p : Project) (k : Nat) :
    ((flatLoop p k).lastSpecifiedFrame = EMPTY_PAIR
      ∨ ∃ j, j < k ∧ FormedAt p (j / 4) (j % 4) (flatLoop p k).lastSpecifiedFrame)
    ∧ ∀ x ∈ (flatLoop p k).fieldsForFrames, ∃ j, j < k ∧ FormedAt p (j / 4) (j % 4) x := by
  induction k with
  | zero =>
    exact ⟨Or.inl rfl, by simp [flatLoop, LoopState.init]⟩
  | succ k ih =>
    have hl : (flatLoop p (k + 1)).lastSpecifiedFrame = EMPTY_PAIR
        ∨ ∃ j, j < k + 1 ∧ FormedAt p (j / 4) (j % 4) (flatLoop p (k + 1)).lastSpecifiedFrame := by
      rw [flatLoop_last]
      rcases matchStep_formed p (k / 4) (k % 4) (flatLoop p k) (Nat.mod_lt _ (by decide))
        with h | h
      · rw [h]
        rcases ih.1 with h0 | ⟨j, hj, hF⟩
        · exact Or.inl h0
        · exact Or.inr ⟨j, by omega, hF⟩
      · exact Or.inr ⟨k, by omega, h⟩
    refine ⟨hl, ?_⟩
    by_cases h : (flatLoop p (k + 1)).lastSpecifiedFrame = EMPTY_PAIR
    · rw [(flatLoop_pending p k h).1]
      intro x hx
      obtain ⟨j, hj, hF⟩ := ih.2 x hx
      exact ⟨j, by omega, hF⟩
    · rw [(flatLoop_push p k h).1]
      intro x hx
      rcases List.mem_append.1 hx with hx | hx
      · obtain ⟨j, hj, hF⟩ := ih.2 x hx
        exact ⟨j, by omega, hF⟩
      · rw [(List.mem_replicate.1 hx).2]
        rcases hl with h0 | h1
        · exact absurd h0 h
        · exact h1

theorem lt_length_of_getElem? {xs : List Int} {i : Nat} {v : Int} (h : xs[i]? = some v) :
    i < xs.length := by
  rw [List.getElem?_eq_some] at h
  exact h.1

/-- C19. Compiled field positions are in range and point at the matching
action: every concrete (not `UINT_FAST32_MAX`) field index of every entry of the
compiled plan is below the length of the action log, and the entry was formed
at an output frame `4 * c + f` of the loop such that a concrete top index
holds the code `2 * f` and lies in cycle `c`, or is `10 * (c + 1)` and holds the
carry marker 9 (with `f = 3`), and a concrete bottom index holds the code
`2 * f + 1` and lies in cycle `c`. -/
theorem compiled_positions_valid (vi : VSVideoInfo) (ld : Bool) (p : Project)
    (x : Nat × Nat) (hx : x ∈ (ivtcCreate vi ld p).fieldsForFrames) :
    (x.1 ≠ UINT_FAST32_MAX → x.1 < p.ivtc_actions.length)
    ∧ (x.2 ≠ UINT_FAST32_MAX → x.2 < p.ivtc_actions.length)
    ∧ ∃ c f, f < 4 ∧ 4 * c + f < outputFrameCount p ∧ FormedAt p c f x := by
  rw [ivtcCreate_fields, compileLoop_eq_flatLoop] at hx
  obtain ⟨j, hj, hF⟩ := (flatLoop_formed p _).2 x hx
  refine ⟨?_, ?_, j / 4, j % 4, Nat.mod_lt _ (by decide), by omega, hF⟩
  · intro h
    rcases hF.1 h with ⟨g, _, _⟩ | ⟨_, _, g⟩
    · exact lt_length_of_getElem? g
    · exact lt_length_of_getElem? g
  · intro h
    exact lt_length_of_getElem? (hF.2 h).1

/-- Instance of C19: the entry `(10, 7)` compiled from
`[0,1,2,3,4,5,8,7,8,8,9]` has both indices below the length 11 and was formed
at some frame of the loop. -/
theorem compiled_positions_valid_witness :
    (((10, 7) : Nat × Nat).1 ≠ UINT_FAST32_MAX → ((10, 7) : Nat × Nat).1
        < (⟨[0, 1, 2, 3, 4, 5, 8, 7, 8, 8, 9], fun _ => none⟩ : Project).ivtc_actions.length)
    ∧ (((10, 7) : Nat × Nat).2 ≠ UINT_FAST32_MAX → ((10, 7) : Nat × Nat).2
        < (⟨[0, 1, 2, 3, 4, 5, 8, 7, 8, 8, 9], fun _ => none⟩ : Project).ivtc_actions.length)
    ∧ ∃ c f, f < 4
        ∧ 4 * c + f < outputFrameCount ⟨[0, 1, 2, 3, 4, 5, 8, 7, 8, 8, 9], fun _ => none⟩
        ∧ FormedAt ⟨[0, 1, 2, 3, 4, 5, 8, 7, 8, 8, 9], fun _ => none⟩ c f (10, 7) :=
  compiled_positions_valid sampleInfo false
    ⟨[0, 1, 2, 3, 4, 5, 8, 7, 8, 8, 9], fun _ => none⟩ (10, 7) (by decide)

/-! ## The pending counter -/

theorem loopPrefix_eq_flatLoop (p : Project) (c m : Nat) (hc : c ≤ completeCycles p)
    (hm : m ≤ 4) : loopPrefix p c m = flatLoop p (4 * c + m) := by
  unfold loopPrefix
  rw [foldl_cycles p c hc]
  exact foldl_frames p c m hm

theorem cycle_of_frame_le (p : Project) (k : Nat) (hk : k < outputFrameCount p) :
    k / 4 ≤ completeCycles p := by
  have hr := fieldsWithIncompleteCycles_lt p
  unfold outputFrameCount at hk
  omega

/-- State of the loop after output frame `k`. -/
theorem loopPrefix_after_frame (p : Project) (k : Nat) (hk : k < outputFrameCount p) :
    loopPrefix p (k / 4) (k % 4 + 1) = flatLoop p (k + 1) := by
  rw [loopPrefix_eq_flatLoop p _ _ (cycle_of_frame_le p k hk) (by omega)]
  congr 1
  omega

theorem fields_of_pending_run (p : Project) (n m : Nat)
    (hrun : ∀ j, n ≤ j → j < n + m → (flatLoop p (j + 1)).lastSpecifiedFrame = EMPTY_PAIR) :
    (flatLoop p (n + m)).fieldsForFrames = (flatLoop p n).fieldsForFrames := by
  induction m with
  | zero => rfl
  | succ m ih =>
    have h1 := (flatLoop_pending p (n + m) (hrun (n + m) (by omega) (by omega))).1
    rw [show n + (m + 1) = n + m + 1 by omega, h1]
    exact ih (fun j h1 h2 => hrun j h1 (by omega))

/-- C20. Pending-counter invariant of the compile loop: whenever the loop has
processed the first `k = 4 * c + m` output frames, `fieldsForFrames.length +
(pushCount - 1) = k` and `pushCount ≥ 1`.  Hence the final plan length is at
most `outputFrameCount`; it is the index of the last frame that left a
non-empty last specified pair plus one, or 0 when no frame did; and it is
strictly less than `outputFrameCount` exactly when there is a last output frame
and it leaves the last specified pair empty. -/
theorem pending_counter_invariant (p : Project) :
    (∀ c m, c < totalCycles p → m ≤ frameCountInCycle p c →
        (loopPrefix p c m).fieldsForFrames.length + ((loopPrefix p c m).pushCount - 1)
            = 4 * c + m
        ∧ 1 ≤ (loopPrefix p c m).pushCount)
    ∧ (compileLoop p).fieldsForFrames.length + ((compileLoop p).pushCount - 1)
        = outputFrameCount p
    ∧ 1 ≤ (compileLoop p).pushCount
    ∧ (compileLoop p).fieldsForFrames.length ≤ outputFrameCount p
    ∧ (∀ k, k < outputFrameCount p →
        (loopPrefix p (k / 4) (k % 4 + 1)).lastSpecifiedFrame ≠ EMPTY_PAIR →
        (∀ j, k < j → j < outputFrameCount p →
          (loopPrefix p (j / 4) (j % 4 + 1)).lastSpecifiedFrame = EMPTY_PAIR) →
        (compileLoop p).fieldsForFrames.length = k + 1)
    ∧ ((∀ j, j < outputFrameCount p →
          (loopPrefix p (j / 4) (j % 4 + 1)).lastSpecifiedFrame = EMPTY_PAIR) →
        (compileLoop p).fieldsForFrames.length = 0)
    ∧ ((compileLoop p).fieldsForFrames.length < outputFrameCount p
        ↔ 0 < outputFrameCount p ∧ (compileLoop p).lastSpecifiedFrame = EMPTY_PAIR) := by
  have hN := flatLoop_count p (outputFrameCount p)
  rw [compileLoop_eq_flatLoop]
  refine ⟨?_, by omega, hN.2, by omega, ?_, ?_, ?_⟩
  · intro c m hc hm
    have hr := fieldsWithIncompleteCycles_lt p
    have hcc : c ≤ completeCycles p := by
      unfold totalCycles at hc
      split at hc <;> omega
    have hm4 : m ≤ 4 := by
      by_cases h : c < completeCycles p
      · rw [frameCountInCycle_complete p c h] at hm
        exact hm
      · have : c = completeCycles p := by omega
        subst this
        rw [frameCountInCycle_last] at hm
        omega
    rw [loopPrefix_eq_flatLoop p c m hcc hm4]
    have := flatLoop_count p (4 * c + m)
    omega
  · intro k hk hne hrun
    rw [loopPrefix_after_frame p k hk] at hne
    have hpush := flatLoop_push p k hne
    have hcnt := flatLoop_count p (k + 1)
    have hfix := fields_of_pending_run p (k + 1) (outputFrameCount p - (k + 1))
      (fun j h1 h2 => by
        have := hrun j (by omega) (by omega)
        rwa [loopPrefix_after_frame p j (by omega)] at this)
    rw [show k + 1 + (outputFrameCount p - (k + 1)) = outputFrameCount p by omega] at hfix
    rw [hfix]
    omega
  · intro hrun
    have hfix := fields_of_pending_run p 0 (outputFrameCount p)
      (fun j _ h2 => by
        have := hrun j (by omega)
        rwa [loopPrefix_after_frame p j (by omega)] at this)
    rw [Nat.zero_add] at hfix
    rw [hfix]
    rfl
  · cases hO : outputFrameCount p with
    | zero =>
      simp
    | succ k =>
      rw [hO] at hN
      by_cases h : (flatLoop p (k + 1)).lastSpecifiedFrame = EMPTY_PAIR
      · obtain ⟨_, h2⟩ := flatLoop_pending p k h
        have hk := flatLoop_count p k
        constructor
        · intro _
          exact ⟨by omega, h⟩
        · intro _
          omega
      · obtain ⟨_, h2⟩ := flatLoop_push p k h
        constructor
        · intro hlt
          omega
        · intro hh
          exact absurd hh.2 h

/-- Instance of C20: for `[0,1,2,3,8,8,8,8,8,8]` with the frames 2 and 3
deferred, after two frames of cycle 0 the plan has 2 entries and `pushCount`
is 1; frame 1 is the last frame that leaves a non-empty pair, so the final
plan has 2 entries, fewer than the 4 output frames. -/
theorem pending_counter_invariant_witness :
    ((loopPrefix ⟨[0, 1, 2, 3, 8, 8, 8, 8, 8, 8],
          fun k => if k = "2" ∨ k = "3" then some "Next" else none⟩ 0 2).fieldsForFrames.length
        + ((loopPrefix ⟨[0, 1, 2, 3, 8, 8, 8, 8, 8, 8],
          fun k => if k = "2" ∨ k = "3" then some "Next" else none⟩ 0 2).pushCount - 1)
        = 4 * 0 + 2
      ∧ 1 ≤ (loopPrefix ⟨[0, 1, 2, 3, 8, 8, 8, 8, 8, 8],
          fun k => if k = "2" ∨ k = "3" then some "Next" else none⟩ 0 2).pushCount)
    ∧ (compileLoop ⟨[0, 1, 2, 3, 8, 8, 8, 8, 8, 8],
          fun k => if k = "2" ∨ k = "3" then some "Next" else none⟩).fieldsForFrames.length
        = 1 + 1 :=
  have h := pending_counter_invariant ⟨[0, 1, 2, 3, 8, 8, 8, 8, 8, 8],
    fun k => if k = "2" ∨ k = "3" then some "Next" else none⟩
  ⟨h.1 0 2 (by decide) (by decide),
    h.2.2.2.2.1 1 (by decide) (by decide)
      (by
        intro j h1 h2
        have hj : j = 2 ∨ j = 3 := by
          have : outputFrameCount ⟨[0, 1, 2, 3, 8, 8, 8, 8, 8, 8],
            fun k => if k = "2" ∨ k = "3" then some "Next" else none⟩ = 4 := by decide
          omega
        rcases hj with rfl | rfl <;> decide)⟩

end IVTC

